import Mathlib

/-!
Verification of the `uca` update-orchestration engine (cmd/uca/main.go).

The Go source is shallowly embedded: pure functions become Lean functions,
external effects (running child processes, the filesystem, `exec.LookPath`,
symlink resolution) become explicit oracle parameters, and the per-run
memoized environment state becomes an immutable snapshot structure.
Machine integers that matter (process exit codes) are modelled as `Int`.
`nil` vs non-`nil` Go slices are modelled as `Option (List String)` where
the code distinguishes them.  All paths follow the Unix (`GOOS != windows`)
branches of the source.
-/

namespace UCA

/-! ## Go string primitives

All primitives recurse structurally over `String.data` so that every
definition evaluates inside the kernel (core `String.splitOn` and friends
use well-founded position recursion and do not). -/

/-- Split a character list at each left-to-right, non-overlapping
occurrence of the non-empty separator `sep`.  `fuel` is an upper bound on
the number of steps; each step consumes at least one character, so
`l.length + 1` fuel is always enough. -/
def splitOnListAux (sep : List Char) : Nat → List Char → List Char → List (List Char)
  | _, [], acc => [acc.reverse]
  | 0, l, acc => [acc.reverse ++ l]
  | fuel + 1, c :: rest, acc =>
    if sep.isPrefixOf (c :: rest) then
      acc.reverse :: splitOnListAux sep fuel ((c :: rest).drop sep.length) []
    else splitOnListAux sep fuel rest (c :: acc)

/-- Split on every occurrence of `sep`; with an empty separator the whole
list is a single piece (the empty-separator case is never exercised). -/
def splitOnList (sep l : List Char) : List (List Char) :=
  if sep = [] then [l] else splitOnListAux sep (l.length + 1) l []

/-- Go `strings.Split` / Lean `String.splitOn` for a non-empty separator. -/
def goSplitOn (s sep : String) : List String :=
  (splitOnList sep.data s.data).map String.mk

/-- Concatenate with separators (Go `strings.Join`). -/
def goIntercalate (sep : String) : List String → String
  | [] => ""
  | [x] => x
  | x :: y :: xs => x ++ sep ++ goIntercalate sep (y :: xs)

/-- Go `strings.HasPrefix`. -/
def goStartsWith (s pre : String) : Bool :=
  pre.data.isPrefixOf s.data

/-- Go `strings.TrimSpace` (ASCII whitespace, which is all the engine's
patterns produce). -/
def goTrim (s : String) : String :=
  String.mk (((s.data.dropWhile Char.isWhitespace).reverse.dropWhile Char.isWhitespace).reverse)

/-- Drop the first `n` characters (Go slicing past an ASCII prefix). -/
def goDropStr (s : String) (n : Nat) : String :=
  String.mk (s.data.drop n)

/-- Go `strings.Contains`: a non-empty pattern occurs iff splitting on it
yields at least two pieces; `Contains(s, "")` is true. -/
def goContains (s sub : String) : Bool :=
  sub = "" || (goSplitOn s sub).length ≥ 2

/-- Split `s` at the first occurrence of the non-empty pattern `pat`,
as Go `strings.Index` + slicing: `some (before, after)` where
`s = before ++ pat ++ after` and `pat` does not occur in `before`. -/
def goSplitFirst? (s pat : String) : Option (String × String) :=
  match goSplitOn s pat with
  | [] => none
  | [_] => none
  | before :: rest => some (before, goIntercalate pat rest)

/-- Strip a single trailing carriage return (Go `dropCR`). -/
def dropCR (l : List Char) : List Char :=
  if l.getLast? = some '\r' then l.dropLast else l

/-- Go `bufio.Scanner` with `ScanLines`: split on `'\n'`, strip one
trailing `'\r'` per line, and do not emit a final empty token when the
input ends with a newline. -/
def goScanLines (s : String) : List String :=
  let parts := (splitOnList ['\n'] s.data).map dropCR
  (if parts.getLast? = some [] then parts.dropLast else parts).map String.mk

/-- Go `strings.TrimRight(s, "\n")`. -/
def goTrimRightNewlines (s : String) : String :=
  String.mk ((s.data.reverse.dropWhile (· = '\n')).reverse)

/-! ## Go path/filepath (Unix branches) -/

/-- Go `filepath.IsAbs` on Unix. -/
def isAbsPath (p : String) : Bool := goStartsWith p "/"

/-- The element-processing loop of Go `filepath.Clean`, working on the
"/"-separated components.  `acc` holds the output components in reverse. -/
def cleanLoop (rooted : Bool) : List String → List String → List String
  | acc, [] => acc.reverse
  | acc, c :: rest =>
    if c = "" ∨ c = "." then cleanLoop rooted acc rest
    else if c = ".." then
      match acc with
      | [] => if rooted then cleanLoop rooted [] rest else cleanLoop rooted [".."] rest
      | top :: tail =>
        if top = ".." then cleanLoop rooted (".." :: top :: tail) rest
        else cleanLoop rooted tail rest
    else cleanLoop rooted (c :: acc) rest

/-- Go `filepath.Clean` on Unix. -/
def goClean (path : String) : String :=
  if path = "" then "."
  else
    let rooted := isAbsPath path
    let comps := cleanLoop rooted [] (goSplitOn path "/")
    if rooted then "/" ++ goIntercalate "/" comps
    else if comps.isEmpty then "." else goIntercalate "/" comps

/-- Go `filepath.Dir` on Unix: `Clean` of everything up to and including
the last separator, `"."` when there is none. -/
def goDir (path : String) : String :=
  match goSplitOn path "/" with
  | [] => "."
  | [_] => "."
  | parts => goClean (goIntercalate "/" parts.dropLast ++ "/")

/-- Drop all trailing `'/'` characters. -/
def stripTrailingSlashes (p : String) : String :=
  String.mk ((p.data.reverse.dropWhile (· = '/')).reverse)

/-- Go `filepath.Base` on Unix. -/
def goBase (path : String) : String :=
  if path = "" then "."
  else
    let p := stripTrailingSlashes path
    if p = "" then "/"
    else
      match (goSplitOn p "/").getLast? with
      | some c => c
      | none => p

/-- `resolveSymlinkPath` from the source.  The oracle `resolve` models
`filepath.EvalSymlinks` composed with `filepath.Clean`, returning `""` on
error, exactly as the Go helper does for non-empty input. -/
def resolveSymlinkPath (resolve : String → String) (path : String) : String :=
  if path = "" then "" else resolve path

/-- `samePath` from the source (Unix branch). -/
def samePath (resolve : String → String) (a b : String) : Bool :=
  if a = "" ∨ b = "" then false
  else
    let a := goClean a
    let b := goClean b
    if a = b then true
    else
      let ra := resolveSymlinkPath resolve a
      let rb := resolveSymlinkPath resolve b
      if ra ≠ "" ∧ rb ≠ "" then ra = rb
      else if ra ≠ "" ∧ ra = b then true
      else if rb ≠ "" ∧ rb = a then true
      else false

/-! ## npm ENOTEMPTY detection, extraction and cleanup -/

/-- `isNpmGlobalMutate` from the source. -/
def isNpmGlobalMutate (args : List String) : Bool :=
  match args with
  | a0 :: a1 :: _ => a0 = "npm" && (a1 = "install" || a1 = "update")
  | _ => false

/-- `shouldRetryNpm` from the source. -/
def shouldRetryNpm (args : List String) (output : String) : Bool :=
  if !isNpmGlobalMutate args then false
  else if goContains output "ENOTEMPTY" then true
  else if goContains output "errno -66" then true
  else if goContains output "directory not empty" then true
  else false

/-- First scanning loop of `extractNpmRenamePaths`: pick up the last
`npm error path ` / `npm error dest ` lines. -/
def extractPathDestLines (lines : List String) : String × String :=
  lines.foldl
    (fun pd lineRaw =>
      let line := goTrim lineRaw
      if goStartsWith line "npm error path " then
        (goTrim (goDropStr line "npm error path ".data.length), pd.2)
      else if goStartsWith line "npm error dest " then
        (pd.1, goTrim (goDropStr line "npm error dest ".data.length))
      else pd)
    ("", "")

/-- One iteration of the second scanning loop of `extractNpmRenamePaths`:
parse `rename '<path>' -> '<dest>'` out of a (trimmed) line. -/
def parseRenameLine (line : String) : Option (String × String) :=
  if !goContains line "rename \x27" ∨ !goContains line "\x27 -> \x27" then none
  else
    match goSplitFirst? line "rename \x27" with
    | none => none
    | some (_, afterStart) =>
      match goSplitFirst? afterStart "\x27 -> \x27" with
      | none => none
      | some (p, rest) =>
        match goSplitFirst? rest "\x27" with
        | none => none
        | some (d, _) => some (p, d)

/-- Second scanning loop of `extractNpmRenamePaths`: first line that
parses as a rename wins (the Go loop `break`s). -/
def findRenamePaths? : List String → Option (String × String)
  | [] => none
  | lineRaw :: rest =>
    match parseRenameLine (goTrim lineRaw) with
    | some pd => some pd
    | none => findRenamePaths? rest

/-- `extractNpmRenamePaths` from the source.  Note that when the second
loop finds nothing, the possibly partial values from the first loop are
returned unchanged. -/
def extractNpmRenamePaths (output : String) : String × String :=
  let lines := goScanLines output
  let pd := extractPathDestLines lines
  if pd.1 ≠ "" ∧ pd.2 ≠ "" then pd
  else
    match findRenamePaths? lines with
    | some pd2 => pd2
    | none => pd

/-- `isSafeNpmRenameTarget` from the source. -/
def isSafeNpmRenameTarget (path dest : String) : Bool :=
  if path = "" ∨ dest = "" then false
  else if !isAbsPath dest ∨ !isAbsPath path then false
  else if goDir path ≠ goDir dest then false
  else
    let base := goBase path
    let destBase := goBase dest
    if destBase = "." ∨ destBase = ".." ∨ base = "." ∨ base = ".." then false
    else if !goStartsWith destBase ("." ++ base) then false
    else true

/-- Filesystem oracle: `statOk` models `os.Stat` succeeding, `removeErr`
models the error text of `os.RemoveAll` (`none` on success). -/
structure FS where
  statOk : String → Bool
  removeErr : String → Option String

/-- `cleanupNpmENotEmpty` from the source.  The second component is the
effect trace: the list of paths passed to `os.RemoveAll`. -/
def cleanupNpmENotEmpty (fs : FS) (output : String) : String × List String :=
  let pd := extractNpmRenamePaths output
  if !isSafeNpmRenameTarget pd.1 pd.2 then ("", [])
  else if !fs.statOk pd.2 then ("", [])
  else
    match fs.removeErr pd.2 with
    | some e => ("failed to remove stale npm temp dir " ++ pd.2 ++ ": " ++ e, [pd.2])
    | none => ("removed stale npm temp dir " ++ pd.2, [pd.2])

/-- `formatRetryOutput` from the source. -/
def formatRetryOutput (first cleanupMsg second : String) : String :=
  let first := goTrimRightNewlines first
  let cleanupMsg := goTrim cleanupMsg
  let second := goTrim second
  if first = "" then second
  else if second = "" then first
  else if cleanupMsg ≠ "" then
    first ++ "\n\n(uca) " ++ cleanupMsg ++ "\n(uca) retrying npm after ENOTEMPTY\n" ++ second
  else first ++ "\n\n(uca) retrying npm after ENOTEMPTY\n" ++ second

/-! ## Command execution -/

/-- The shape of the error returned by `cmd.Run` in `runCmd`, which is
all `runCmd` inspects besides the captured output. -/
inductive ExecOutcome where
  /-- `cmd.Run` returned a nil error. -/
  | success (out : String) (dur : Nat)
  /-- the error matches `context.DeadlineExceeded`. -/
  | deadline (out : String) (dur : Nat)
  /-- the error matches `context.Canceled`. -/
  | canceledErr (out : String) (dur : Nat)
  /-- the error is an `*exec.ExitError` with this exit code. -/
  | exited (out : String) (code : Int) (dur : Nat)
  /-- any other error. -/
  | otherErr (out : String) (dur : Nat)
deriving DecidableEq

def exitCodeTimeout : Int := 124
def exitCodeCanceled : Int := 130

/-- `runCmd` from the source: combined output, exit code, duration.
Timeout and cancellation are mapped structurally from the error shape,
before any inspection of output content. -/
def runCmd : ExecOutcome → String × Int × Nat
  | .success out dur => (out, 0, dur)
  | .deadline out dur => (out, exitCodeTimeout, dur)
  | .canceledErr out dur => (out, exitCodeCanceled, dur)
  | .exited out code dur => (out, code, dur)
  | .otherErr out dur => (out, 1, dur)

/-- Result of `runUpdateCmd`, with two effect-trace fields: `attempts`
counts the `runCmd` invocations and `removed` the paths passed to
`os.RemoveAll` during cleanup. -/
structure UpdRes where
  out : String
  classifyOut : String
  exitCode : Int
  duration : Nat
  attempts : Nat
  removed : List String
deriving DecidableEq

/-- `runUpdateCmd` from the source.  `runs n` is the outcome of the
`n`-th child-process execution of `args` in this call. -/
def runUpdateCmd (fs : FS) (runs : Nat → ExecOutcome) (args : List String) : UpdRes :=
  let r0 := runCmd (runs 0)
  let out := r0.1
  let exitCode := r0.2.1
  let duration := r0.2.2
  if exitCode = 0 then ⟨out, out, exitCode, duration, 1, []⟩
  else if shouldRetryNpm args out then
    let cl := cleanupNpmENotEmpty fs out
    let r1 := runCmd (runs 1)
    let combined := formatRetryOutput out cl.1 r1.1
    let classifyOut := if goTrim r1.1 = "" then out else r1.1
    ⟨combined, classifyOut, r1.2.1, duration + r1.2.2, 2, cl.2⟩
  else ⟨out, out, exitCode, duration, 1, []⟩

/-! ## Data model

Modelled from the spec: the `internal/agents` file under src/ is an older
revision without strategies; the current package's types and `Kind*`
constants are reconstructed from their uses in main.go and from the spec's
data model (§3).  The `Kind*` constants are distinct non-empty strings;
their exact spelling never matters to the engine (they are compared only
with each other and with `""`). -/

def KindNative : String := "native"
def KindNpm : String := "npm"
def KindPnpm : String := "pnpm"
def KindYarn : String := "yarn"
def KindBun : String := "bun"
def KindBrew : String := "brew"
def KindPip : String := "pip"
def KindUv : String := "uv"
def KindVSCode : String := "vscode"

/-- `agents.UpdateStrategy` (modelled from the spec and its uses): a
`(kind, command-or-package, extension-id)` tuple.  `Command` is `none`
for a nil Go slice. -/
structure UpdateStrategy where
  Kind : String
  Command : Option (List String) := none
  Package : String := ""
  ExtensionID : String := ""
deriving DecidableEq

/-- `agents.Agent` (modelled from the spec and its uses in main.go). -/
structure Agent where
  Name : String := ""
  Binary : String := ""
  VersionCmd : List String := []
  ExtensionID : String := ""
  Strategies : List UpdateStrategy := []
deriving DecidableEq

def statusUpdated : String := "updated"
def statusUnchanged : String := "unchanged"
def statusSkipped : String := "skipped"
def statusFailed : String := "failed"

def reasonMissing : String := "missing"
def reasonMissingBun : String := "missing bun"
def reasonMissingCode : String := "missing vscode"
def reasonManualInstall : String := "manual install"
def reasonQuota : String := "quota"
def reasonNpmNotEmpty : String := "npm ENOTEMPTY"

/-- The per-agent `result` record.  Durations are nanosecond counts
(`time.Duration`). -/
structure Result where
  Agent : UCA.Agent := {Name := ""}
  Status : String := ""
  Reason : String := ""
  Before : String := ""
  After : String := ""
  Duration : Nat := 0
  Log : String := ""
  UpdateCmd : String := ""
  Method : String := ""
  Explain : String := ""
deriving DecidableEq

/-- `isNodeKind` from the source. -/
def isNodeKind (kind : String) : Bool :=
  kind = KindNpm || kind = KindPnpm || kind = KindYarn || kind = KindBun

/-- `shouldLockKind` from the source. -/
def shouldLockKind (kind : String) : Bool :=
  kind = KindNpm || kind = KindPnpm || kind = KindYarn || kind = KindBun ||
    kind = KindBrew || kind = KindPip || kind = KindUv || kind = KindVSCode

/-! ## Failure classification -/

/-- Go `strings.ToLower` (ASCII folding; every classifier pattern is
ASCII). -/
def goToLower (s : String) : String :=
  String.mk (s.data.map Char.toLower)

/-- `appendHint` from the source. -/
def appendHint (detail hint : String) : String :=
  let hint := goTrim hint
  if hint = "" then detail
  else if goTrim detail = "" then "hint: " ++ hint
  else detail ++ "; hint: " ++ hint

/-- Go `len(updateCmd) > 0 && updateCmd[0] == w`. -/
def firstArgIs (updateCmd : List String) (w : String) : Bool :=
  match updateCmd with
  | c0 :: _ => c0 = w
  | [] => false

/-- `classifyUpdateFailure` from the source: priority-ordered content
matches giving a `(reason, hint)` pair, `("", "")` when nothing matches. -/
def classifyUpdateFailure (updateCmd : List String) (output : String) : String × String :=
  let lower := goToLower output
  if goContains output "TerminalQuotaError" ∨ goContains lower "exhausted your capacity" ∨
      goContains lower "quota will reset" then
    (reasonQuota, "quota exceeded; retry later or update via npm (@google/gemini-cli)")
  else if isNpmGlobalMutate updateCmd ∧ (goContains output "ENOTEMPTY" ∨
      goContains output "errno -66" ∨ goContains lower "directory not empty") then
    (reasonNpmNotEmpty,
      "npm rename failed; retry or remove leftover temp directory under the global npm prefix")
  else if goContains lower "eacces" ∨ goContains lower "eperm" ∨
      goContains lower "permission denied" then
    ("permission", "permission error; check your global install prefix and file permissions")
  else if goContains lower "etimedout" ∨ goContains lower "timed out" ∨
      goContains lower "econnreset" ∨ goContains lower "enotfound" ∨
      goContains lower "eai_again" ∨ goContains lower "econnrefused" ∨
      goContains lower "socket hang up" then
    ("network", "network error; check connectivity/proxy/VPN and retry")
  else if goContains lower "self signed certificate" ∨
      goContains lower "unable to get local issuer certificate" ∨
      goContains lower "cert has expired" ∨ goContains lower "ssl routines" ∨
      (goContains lower "tls" ∧ goContains lower "certificate") then
    ("tls", "TLS/CA error; check corporate proxy settings or system certificates")
  else if firstArgIs updateCmd "brew" ∧
      (goContains lower "another active homebrew update process" ∨
        goContains lower "homebrew is already updating" ∨
        goContains lower "cannot install in homebrew prefix") then
    ("brew busy", "homebrew is locked/busy; wait for other brew process and retry")
  else ("", "")

/-- `setFailureResult` from the source.  `timeout` is in whole seconds and
the timeout hint renders it as `Ns` (Go pretty-prints `time.Duration`;
no claim inspects this text). -/
def setFailureResult (res : Result) (exitCode : Int) (updateCmd : List String)
    (output : String) (timeout : Nat) : Result :=
  let res := { res with Status := statusFailed }
  if exitCode = exitCodeTimeout then
    { res with
      Reason := "timeout"
      Explain := if timeout > 0 then
          appendHint res.Explain
            ("command timed out after " ++ toString timeout ++
              "s; rerun with --timeout 0 or increase it")
        else appendHint res.Explain "command timed out; rerun with a larger --timeout" }
  else if exitCode = exitCodeCanceled then
    { res with
      Reason := "canceled"
      Explain := appendHint res.Explain "interrupted; retry the update" }
  else
    let rh := classifyUpdateFailure updateCmd output
    let res :=
      if rh.1 = "" then { res with Reason := "exit " ++ toString exitCode }
      else { res with Reason := rh.1 }
    if rh.2 ≠ "" then { res with Explain := appendHint res.Explain rh.2 } else res

/-- `hasFailures` from the source. -/
def hasFailures (results : List Result) : Bool :=
  results.any (fun res => res.Status = statusFailed)

/-- The tail of `main`: the whole process exits 1 when `hasFailures`,
otherwise 0. -/
def processExitCode (results : List Result) : Nat :=
  if hasFailures results then 1 else 0

/-! ## Version probing -/

/-- `isVersionOnlyLine` from the source. -/
def isVersionOnlyLine (line : String) : Bool :=
  if line.data.any (fun c => c = ' ' ∨ c = '\t') then false
  else
    let line := if goStartsWith line "v" then goDropStr line 1 else line
    let parts := goSplitOn line "."
    if parts.length < 2 then false
    else parts.all (fun part => part ≠ "" && part.data.all (fun r => '0' ≤ r && r ≤ '9'))

/-- The per-line accumulator step of `parseVersionOutput`: running
`(first, versionOnly)` pair over the trimmed non-blank lines. -/
def parseLinesStep (fv : String × String) (lineRaw : String) : String × String :=
  let line := goTrim lineRaw
  if line = "" then fv
  else
    ((if fv.1 = "" then line else fv.1),
     (if isVersionOnlyLine line then line else fv.2))

/-- `parseVersionOutput` from the source: last version-only line, else
first non-blank line, else `"unknown"`. -/
def parseVersionOutput (out : String) : String :=
  let trimmed := goTrim out
  if trimmed = "" then "unknown"
  else
    let fv := (goSplitOn trimmed "\n").foldl parseLinesStep ("", "")
    if fv.2 ≠ "" then fv.2
    else if fv.1 ≠ "" then fv.1
    else "unknown"

/-- `runVersionCmd` from the source.  The oracle `probe` models
`CombinedOutput` of the version command: `none` is a non-nil error,
`some out` success with combined output `out`. -/
def runVersionCmd (probe : List String → Option String) (args : List String) : String :=
  match args with
  | [] => "unknown"
  | _ :: _ =>
    match probe args with
    | none => "unknown"
    | some out => parseVersionOutput out

/-! ## Environment snapshot -/

/-- Immutable snapshot of `envState`.  The `sync.Once`-memoized values
(global bin dirs, package maps, extension maps) collapse to fields: the
single-flight guard guarantees one computation per run, so every reader
observes the same value.  Queries that re-run a command each time
(`brewHas`, `pipHas`) and the filesystem/`LookPath`/symlink lookups are
function-valued oracles. -/
structure Env where
  hasBun : Bool := false
  hasBrew : Bool := false
  hasNpm : Bool := false
  hasPnpm : Bool := false
  hasYarn : Bool := false
  hasUv : Bool := false
  hasPython : Bool := false
  codeCmd : String := ""
  /-- `exec.LookPath` + `filepath.Clean` (the `binPathCache` contents);
  `""` when absent. -/
  binPath : String → String := fun _ => ""
  /-- `filepath.EvalSymlinks` + `filepath.Clean`; `""` on error. -/
  resolve : String → String := fun _ => ""
  npmBin : String := ""
  pnpmBin : String := ""
  yarnBin : String := ""
  bunGlobalBin : String := ""
  npmPkgs : String → Bool := fun _ => false
  pnpmPkgs : String → Bool := fun _ => false
  yarnPkgs : String → Bool := fun _ => false
  bunPkgs : String → Bool := fun _ => false
  uvTools : String → Bool := fun _ => false
  /-- installed VS Code extension id → version (a map read; `none` when
  the id is absent). -/
  codeExts : String → Option String := fun _ => none
  /-- `brew list --formula --versions <f>` exited 0 with non-blank output. -/
  brewListOk : String → Bool := fun _ => false
  /-- `python3 -m pip show <p>` exited 0. -/
  pipShowOk : String → Bool := fun _ => false
  /-- `os.Stat` succeeds and the path is not a directory (`fileExists`). -/
  fileEx : String → Bool := fun _ => false

/-- `envState.binaryPath` (cache collapsed to the oracle). -/
def Env.binaryPath (e : Env) (name : String) : String :=
  if name = "" then "" else e.binPath name

/-- `envState.hasBinary`. -/
def Env.hasBinary (e : Env) (name : String) : Bool :=
  e.binaryPath name ≠ ""

/-- `envState.hasNodeManager`. -/
def Env.hasNodeManager (e : Env) (kind : String) : Bool :=
  if kind = KindNpm then e.hasNpm
  else if kind = KindPnpm then e.hasPnpm
  else if kind = KindYarn then e.hasYarn
  else if kind = KindBun then e.hasBun
  else false

/-- `envState.nodeBinDir` (memoized loaders collapsed to snapshot fields). -/
def Env.nodeBinDir (e : Env) (kind : String) : String :=
  if kind = KindNpm then e.npmBin
  else if kind = KindPnpm then e.pnpmBin
  else if kind = KindYarn then e.yarnBin
  else if kind = KindBun then e.bunGlobalBin
  else ""

/-- Go `filepath.Join` of two elements (Unix). -/
def goJoin2 (a b : String) : String :=
  if a = "" ∧ b = "" then ""
  else if a = "" then goClean b
  else if b = "" then goClean a
  else goClean (a ++ "/" ++ b)

/-- `binDirHasBinary` from the source (Unix candidate list). -/
def binDirHasBinary (fileEx : String → Bool) (binDir name : String) : Bool :=
  if binDir = "" ∨ name = "" then false
  else fileEx (goJoin2 binDir name)

/-- `envState.nodeBinHasBinary`. -/
def Env.nodeBinHasBinary (e : Env) (kind name : String) : Bool :=
  binDirHasBinary e.fileEx (e.nodeBinDir kind) name

/-- The candidate order in which `nodeManagerForBinary` and
`nodeManagerForPackage` iterate the node-family kinds. -/
def nodeKindsOrder : List String := [KindNpm, KindPnpm, KindYarn, KindBun]

/-- Go byte length (`len(dir)` on a string). -/
def goLenBytes (s : String) : Nat :=
  s.data.foldl (fun n c => n + c.utf8Size) 0

/-- The tie-break loop of `nodeManagerForBinary`: running best kind,
best byte length (`-1` initially) and tie flag. -/
def bestNodeMatchFold (dirLen : String → Int) (ms : List String) :
    String × Int × Bool :=
  ms.foldl
    (fun st kind =>
      if dirLen kind > st.2.1 then (kind, dirLen kind, false)
      else if dirLen kind = st.2.1 then (st.1, st.2.1, true)
      else st)
    ("", -1, false)

/-- `envState.nodeManagerForBinary` from the source. -/
def Env.nodeManagerForBinary (e : Env) (name : String) : String :=
  let binPath := e.binaryPath name
  if binPath = "" then ""
  else
    let binDir := goDir binPath
    let resolvedBinDir :=
      if resolveSymlinkPath e.resolve binPath ≠ "" then
        goDir (resolveSymlinkPath e.resolve binPath)
      else ""
    let ms := nodeKindsOrder.filter fun kind =>
      decide (e.hasNodeManager kind = true ∧ e.nodeBinDir kind ≠ "" ∧
        (samePath e.resolve (e.nodeBinDir kind) binDir = true ∨
          (resolvedBinDir ≠ "" ∧
            samePath e.resolve (e.nodeBinDir kind) resolvedBinDir = true)))
    if ms.length = 1 then ms.headD ""
    else if ms.length > 1 then
      let st := bestNodeMatchFold (fun kind => (goLenBytes (e.nodeBinDir kind) : Int)) ms
      if !st.2.2 then st.1 else ""
    else ""

/-- `envState.nodeManagerHasPackage`. -/
def Env.nodeManagerHasPackage (e : Env) (kind pkg : String) : Bool :=
  if kind = KindNpm then e.npmPkgs pkg
  else if kind = KindPnpm then e.pnpmPkgs pkg
  else if kind = KindYarn then e.yarnPkgs pkg
  else if kind = KindBun then e.bunPkgs pkg
  else false

/-- `envState.nodeManagerForPackage` from the source: exactly one present
manager claiming the package wins, anything else is no match. -/
def Env.nodeManagerForPackage (e : Env) (pkg : String) : String :=
  if pkg = "" then ""
  else
    let ms := nodeKindsOrder.filter fun kind =>
      e.hasNodeManager kind && e.nodeManagerHasPackage kind pkg
    if ms.length = 1 then ms.headD "" else ""

/-- One step of the tie-break loop of `nodeManagerForBinary` (the body
of `bestNodeMatchFold`). -/
def bnmStep (dirLen : String → Int) (st : String × Int × Bool) (kind : String) :
    String × Int × Bool :=
  if dirLen kind > st.2.1 then (kind, dirLen kind, false)
  else if dirLen kind = st.2.1 then (st.1, st.2.1, true)
  else st

/-- The `matches` list built by `nodeManagerForBinary`: the present node
managers whose global bin directory is the binary's directory (directly
or after symlink resolution). -/
def nodeBinDirMatches (e : Env) (name : String) : List String :=
  let binPath := e.binaryPath name
  let binDir := goDir binPath
  let resolvedBinDir :=
    if resolveSymlinkPath e.resolve binPath ≠ "" then
      goDir (resolveSymlinkPath e.resolve binPath)
    else ""
  nodeKindsOrder.filter fun kind =>
    decide (e.hasNodeManager kind = true ∧ e.nodeBinDir kind ≠ "" ∧
      (samePath e.resolve (e.nodeBinDir kind) binDir = true ∨
        (resolvedBinDir ≠ "" ∧
          samePath e.resolve (e.nodeBinDir kind) resolvedBinDir = true)))

/-- The `matches` list built by `nodeManagerForPackage`: the present
node managers whose global package list contains `pkg`. -/
def nodePkgMatches (e : Env) (pkg : String) : List String :=
  nodeKindsOrder.filter fun kind =>
    e.hasNodeManager kind && e.nodeManagerHasPackage kind pkg

/-- `envState.brewHas`. -/
def Env.brewHas (e : Env) (formula : String) : Bool :=
  if !e.hasBrew then false else e.brewListOk formula

/-- `envState.pipHas`. -/
def Env.pipHas (e : Env) (pkg : String) : Bool :=
  if !e.hasPython then false else e.pipShowOk pkg

/-- `envState.uvHas` (memoized tool map collapsed to a snapshot field). -/
def Env.uvHas (e : Env) (pkg : String) : Bool := e.uvTools pkg

/-- `envState.vscodeHas`. -/
def Env.vscodeHas (e : Env) (extID : String) : Bool := (e.codeExts extID).isSome

/-- `envState.vscodeVersion` (Go map read: `""` when absent). -/
def Env.vscodeVersion (e : Env) (extID : String) : String := (e.codeExts extID).getD ""

/-- `getVersion` from the source.  `probe` models `CombinedOutput` of a
version command (`none` = error). -/
def getVersion (e : Env) (probe : List String → Option String)
    (agent : Agent) (method : String) : String :=
  if method = KindVSCode ∧ agent.ExtensionID ≠ "" ∧
      e.vscodeVersion agent.ExtensionID ≠ "" then
    e.vscodeVersion agent.ExtensionID
  else if agent.VersionCmd.length > 0 ∧
      (agent.Binary = "" ∨ e.hasBinary agent.Binary) then
    runVersionCmd probe agent.VersionCmd
  else if agent.ExtensionID ≠ "" ∧ e.vscodeVersion agent.ExtensionID ≠ "" then
    e.vscodeVersion agent.ExtensionID
  else "unknown"

/-! ## Strategy resolution -/

/-- Go `len` of a possibly-nil slice. -/
def goSliceLen (s : Option (List String)) : Nat :=
  match s with
  | none => 0
  | some l => l.length

/-- `nodeUpdateCommand` from the source. -/
def nodeUpdateCommand (strat : UpdateStrategy) : Option (List String) :=
  if goSliceLen strat.Command > 0 then strat.Command
  else if strat.Kind = KindNpm then
    some ["npm", "install", "-g", strat.Package ++ "@latest"]
  else if strat.Kind = KindPnpm then
    some ["pnpm", "add", "-g", strat.Package ++ "@latest"]
  else if strat.Kind = KindYarn then
    some ["yarn", "global", "add", strat.Package ++ "@latest"]
  else if strat.Kind = KindBun then
    some ["bun", "add", "-g", strat.Package ++ "@latest"]
  else strat.Command

/-- `nodePackageName` from the source: first node-family strategy with a
non-empty package. -/
def nodePackageName : List UpdateStrategy → String
  | [] => ""
  | strat :: rest =>
    if isNodeKind strat.Kind ∧ strat.Package ≠ "" then strat.Package
    else nodePackageName rest

/-- The 4-tuple returned by `resolveUpdate`:
`(updateCmd, reason, method, detail)`; `cmd = none` is a nil command. -/
structure ResolveOut where
  cmd : Option (List String)
  reason : String
  method : String
  detail : String
deriving DecidableEq

/-- The strategy loop of `resolveUpdate`, strategies in declared order;
`codeMissing` is the loop flag recording a VS Code strategy blocked by a
missing editor CLI. -/
def resolveLoop (agent : Agent) (e : Env) (nodeManager packageManager : String) :
    List UpdateStrategy → Bool → ResolveOut
  | [], codeMissing =>
    if codeMissing then
      ⟨none, reasonMissingCode, "", "VS Code CLI not found (code/codium/code-insiders)"⟩
    else if agent.Binary ≠ "" ∧ e.hasBinary agent.Binary then
      ⟨none, reasonManualInstall, "", "binary found but no supported install method detected"⟩
    else ⟨none, reasonMissing, "", "no supported binary or install method detected"⟩
  | strat :: rest, codeMissing =>
    if strat.Kind = KindNative then
      if agent.Binary ≠ "" ∧ !e.hasBinary agent.Binary then
        resolveLoop agent e nodeManager packageManager rest codeMissing
      else
        ⟨strat.Command, "", strat.Kind,
          "binary " ++ agent.Binary ++ " found; using built-in update"⟩
    else if isNodeKind strat.Kind then
      if !e.hasNodeManager strat.Kind then
        resolveLoop agent e nodeManager packageManager rest codeMissing
      else if agent.Binary = "" ∨ strat.Package = "" then
        resolveLoop agent e nodeManager packageManager rest codeMissing
      else if nodeManager ≠ "" then
        if nodeManager ≠ strat.Kind then
          resolveLoop agent e nodeManager packageManager rest codeMissing
        else
          ⟨nodeUpdateCommand strat, "", strat.Kind,
            strat.Kind ++ " global bin has " ++ agent.Binary ++
              "; matched by bin dir; updating via " ++ strat.Kind⟩
      else if packageManager ≠ "" then
        if packageManager ≠ strat.Kind then
          resolveLoop agent e nodeManager packageManager rest codeMissing
        else
          ⟨nodeUpdateCommand strat, "", strat.Kind,
            strat.Kind ++ " global package " ++ strat.Package ++
              " installed; matched by package list; updating via " ++ strat.Kind⟩
      else if !e.nodeBinHasBinary strat.Kind agent.Binary then
        resolveLoop agent e nodeManager packageManager rest codeMissing
      else
        ⟨nodeUpdateCommand strat, "", strat.Kind,
          strat.Kind ++ " global bin has " ++ agent.Binary ++
            "; matched by bin dir; updating via " ++ strat.Kind⟩
    else if strat.Kind = KindBrew then
      if !e.hasBrew then resolveLoop agent e nodeManager packageManager rest codeMissing
      else if e.brewHas strat.Package then
        ⟨some ["brew", "upgrade", strat.Package], "", strat.Kind,
          "brew formula " ++ strat.Package ++ " installed"⟩
      else resolveLoop agent e nodeManager packageManager rest codeMissing
    else if strat.Kind = KindPip then
      if !e.hasPython then resolveLoop agent e nodeManager packageManager rest codeMissing
      else if e.pipHas strat.Package then
        ⟨some ["python3", "-m", "pip", "install", "-U", "--upgrade-strategy",
            "only-if-needed", strat.Package], "", strat.Kind,
          "pip package " ++ strat.Package ++ " installed"⟩
      else resolveLoop agent e nodeManager packageManager rest codeMissing
    else if strat.Kind = KindUv then
      if !e.hasUv then resolveLoop agent e nodeManager packageManager rest codeMissing
      else if e.uvHas strat.Package then
        ⟨some ["uv", "tool", "install", "--force", "--python", "python3.12",
            "--with", "pip", strat.Package ++ "@latest"], "", strat.Kind,
          "uv tool " ++ strat.Package ++ " installed"⟩
      else resolveLoop agent e nodeManager packageManager rest codeMissing
    else if strat.Kind = KindVSCode then
      if e.codeCmd = "" then
        resolveLoop agent e nodeManager packageManager rest true
      else if e.vscodeHas strat.ExtensionID then
        ⟨some [e.codeCmd, "--install-extension", strat.ExtensionID, "--force"], "",
          strat.Kind,
          "VS Code extension " ++ strat.ExtensionID ++ " installed (via " ++
            e.codeCmd ++ ")"⟩
      else resolveLoop agent e nodeManager packageManager rest codeMissing
    else resolveLoop agent e nodeManager packageManager rest codeMissing

/-- `resolveUpdate` from the source. -/
def resolveUpdate (agent : Agent) (e : Env) : ResolveOut :=
  let nodeManager := if agent.Binary ≠ "" then e.nodeManagerForBinary agent.Binary else ""
  let packageName := nodePackageName agent.Strategies
  let packageManager :=
    if nodeManager = "" ∧ packageName ≠ "" then e.nodeManagerForPackage packageName
    else ""
  resolveLoop agent e nodeManager packageManager agent.Strategies false

/-! ## Works, batching and tasks -/

/-- `agentWork` from the source (`show` is spelled `shown`; `show` is a
Lean keyword). -/
structure agentWork where
  agent : Agent := {}
  index : Nat := 0
  shown : Bool := false
  method : String := ""
  explain : String := ""
  reason : String := ""
  nodePackageName : String := ""
  updateCmd : Option (List String) := none
  updateCmdSingle : Option (List String) := none
deriving DecidableEq

/-- `updateTask` from the source. -/
structure updateTask where
  kind : String := ""
  cmd : Option (List String) := none
  agents : List agentWork := []
deriving DecidableEq

/-- `nodeBatchUpdateCommand` from the source (`none` = nil for a non-node
kind; blank package names are skipped). -/
def nodeBatchUpdateCommand (kind : String) (pkgs : List String) : Option (List String) :=
  let args :=
    if kind = KindNpm then some ["npm", "install", "-g"]
    else if kind = KindPnpm then some ["pnpm", "add", "-g"]
    else if kind = KindYarn then some ["yarn", "global", "add"]
    else if kind = KindBun then some ["bun", "add", "-g"]
    else none
  match args with
  | none => none
  | some args =>
    some (args ++ (pkgs.filter fun pkg => decide (goTrim pkg ≠ "")).map (fun pkg => pkg ++ "@latest"))

/-- Go `%q` (`strconv.Quote`) restricted to the escapes arising from the
characters that trigger quoting in `quoteArg`. -/
def goQuote (arg : String) : String :=
  "\"" ++ String.mk ((arg.data.map fun c =>
    if c = '"' then ['\\', '"']
    else if c = '\\' then ['\\', '\\']
    else if c = '\n' then ['\\', 'n']
    else if c = '\t' then ['\\', 't']
    else [c]).flatten) ++ "\""

/-- `quoteArg` from the source. -/
def quoteArg (arg : String) : String :=
  if arg.data.any (fun r => r = ' ' ∨ r = '\t' ∨ r = '\n' ∨ r = '"' ∨ r = '\'') then
    goQuote arg
  else arg

/-- `cmdString` from the source (`none` = nil slice → empty string). -/
def cmdString (args : Option (List String)) : String :=
  goIntercalate " " ((args.getD []).map quoteArg)

/-- One loop step of the detection pass of `runAllWithEvents`: build the
`agentWork` for agent `i`. -/
def buildWork (e : Env) (i : Nat) (agent : Agent) : agentWork :=
  let r := resolveUpdate agent e
  { agent := agent
    index := i
    shown := r.cmd ≠ none ∨ r.reason = reasonManualInstall
    method := r.method
    explain := r.detail
    reason := r.reason
    nodePackageName :=
      if isNodeKind r.method then nodePackageName agent.Strategies else ""
    updateCmdSingle := r.cmd }

/-- The detection pass of `runAllWithEvents`. -/
def buildWorks (e : Env) (selected : List Agent) : List agentWork :=
  selected.enum.map fun iw => buildWork e iw.1 iw.2

/-- A singleton task: the work runs its own per-agent command. -/
def singletonTask (w : agentWork) : updateTask :=
  let w := { w with updateCmd := w.updateCmdSingle }
  ⟨w.method, w.updateCmd, [w]⟩

/-- `pkgSet`-style first-seen deduplication (Go map + append). -/
def dedupFirstSeen (seen : List String) : List String → List String
  | [] => []
  | p :: rest =>
    if p ∈ seen then dedupFirstSeen seen rest
    else p :: dedupFirstSeen (p :: seen) rest

/-- Go string comparison (`s1 <= s2`): bytewise lexicographic order,
written structurally over the character lists. -/
def goStrLeChars : List Char → List Char → Bool
  | [], _ => true
  | _ :: _, [] => false
  | a :: as, b :: bs =>
    if a.toNat < b.toNat then true
    else if b.toNat < a.toNat then false
    else goStrLeChars as bs

def goStrLe (a b : String) : Bool :=
  goStrLeChars a.data b.data

/-- Go `sort.Strings`: ascending lexicographic order. -/
def sortStrings (l : List String) : List String :=
  l.insertionSort fun a b => goStrLe a b = true

/-- The works grouped under node kind `kind` (`nodeGroups[kind]`, in
works order). -/
def worksForKind (works : List agentWork) (kind : String) : List agentWork :=
  works.filter fun w => decide (w.updateCmdSingle ≠ none ∧ w.method = kind)

/-- The members of the kind group with a non-blank package name
(`batchIndexes`). -/
def batchWorksForKind (works : List agentWork) (kind : String) : List agentWork :=
  (worksForKind works kind).filter fun w => decide (goTrim w.nodePackageName ≠ "")

/-- The deduplicated, sorted package list of the kind's batch (`pkgs`). -/
def batchPkgsForKind (works : List agentWork) (kind : String) : List String :=
  sortStrings (dedupFirstSeen [] ((batchWorksForKind works kind).map fun w => goTrim w.nodePackageName))

/-- The combined batch task a node kind's group contributes when some
member has a non-blank package name. -/
def batchTask (works : List agentWork) (kind : String) : updateTask :=
  { kind := kind
    cmd := nodeBatchUpdateCommand kind (batchPkgsForKind works kind)
    agents := (batchWorksForKind works kind).map fun w =>
      { w with updateCmd := nodeBatchUpdateCommand kind (batchPkgsForKind works kind) } }

/-- The tasks contributed by one node kind's group: singleton tasks for
blank-package members, then the combined batch task. -/
def buildTasksForKind (works : List agentWork) (kind : String) : List updateTask :=
  let singles :=
    ((worksForKind works kind).filter fun w => decide (goTrim w.nodePackageName = "")).map
      singletonTask
  if (batchWorksForKind works kind).isEmpty then singles
  else
    let cmd := nodeBatchUpdateCommand kind (batchPkgsForKind works kind)
    singles ++ [⟨kind, cmd, (batchWorksForKind works kind).map fun w => { w with updateCmd := cmd }⟩]

/-- The task-building pass of `runAllWithEvents`.  The Go `nodeGroups`
map is iterated in unspecified order; tasks are produced here in the
canonical `nodeKindsOrder`, which only permutes the task list (no claim
depends on cross-kind task order). -/
def buildTasks (works : List agentWork) : List updateTask :=
  ((works.filter fun w => decide (w.updateCmdSingle ≠ none ∧ isNodeKind w.method = false)).map
      singletonTask) ++
    nodeKindsOrder.flatMap (buildTasksForKind works)

/-- The `works[i].updateCmd` assignment performed during task building
for one work: batch members receive their kind's batch command, everyone
else their own single command. -/
def assignWorkCmd (works : List agentWork) (w : agentWork) : agentWork :=
  match w.updateCmdSingle with
  | none => w
  | some _ =>
    if isNodeKind w.method ∧ goTrim w.nodePackageName ≠ "" then
      { w with updateCmd := nodeBatchUpdateCommand w.method (batchPkgsForKind works w.method) }
    else { w with updateCmd := w.updateCmdSingle }

/-- The `works[i].updateCmd` assignments performed during task building. -/
def assignWorkCmds (works : List agentWork) : List agentWork :=
  works.map (assignWorkCmd works)

/-! ## The scheduler -/

/-- The flag subset the engine reads (`options`). -/
structure Options where
  DryRun : Bool := false
  /-- per-command timeout in whole seconds (`opts.Timeout`). -/
  Timeout : Nat := 0

/-- Per-task execution oracles for `runTask`.  The probe oracles are
indexed by agent position in the task, because the environment the
version command observes differs before and after the update ran. -/
structure TaskEnv where
  env : Env := {}
  fs : FS := { statOk := fun _ => false, removeErr := fun _ => none }
  /-- outcome stream of the batch command's executions. -/
  batchRuns : Nat → ExecOutcome := fun _ => .success "" 0
  /-- outcome stream of agent `i`'s individual fallback command. -/
  indRuns : Nat → Nat → ExecOutcome := fun _ _ => .success "" 0
  /-- `CombinedOutput` oracle of agent `i`'s pre-execution version probe. -/
  probeBefore : Nat → List String → Option String := fun _ _ => none
  /-- `CombinedOutput` oracle of agent `i`'s post-execution version probe. -/
  probeAfter : Nat → List String → Option String := fun _ _ => none

/-- The `prepared[i]` record of `runTask`: the base result with the
pre-execution version probe. -/
def preparedResult (te : TaskEnv) (i : Nat) (w : agentWork) : Result :=
  { Agent := w.agent
    Method := w.method
    Explain := w.explain
    UpdateCmd := cmdString w.updateCmd
    Before := getVersion te.env (te.probeBefore i) w.agent w.method }

/-- One agent's rebuilt Result in the batch-failure fallback of
`runTask`: the agent is re-run with its own singleton command and its
status attributed from that individual exit; `r` is the failed batch
execution. -/
def batchFallbackResult (te : TaskEnv) (timeout : Nat) (r : UpdRes) (i : Nat)
    (w : agentWork) : Result :=
  let res0 := preparedResult te i w
  let res := { res0 with
    Explain := appendHint res0.Explain "batch update failed; retrying individually" }
  let ri := runUpdateCmd te.fs (te.indRuns i) (w.updateCmdSingle.getD [])
  let log0 := goTrimRightNewlines r.out
  let log :=
    if goTrim log0 ≠ "" ∧ goTrim ri.out ≠ "" then
      log0 ++ "\n\n(uca) retrying individually after batch failure\n" ++ goTrim ri.out
    else if goTrim log0 ≠ "" then log0 ++ "\n" ++ goTrim ri.out
    else log0 ++ goTrim ri.out
  let res := { res with
    Duration := ri.duration
    Log := log
    After := getVersion te.env (te.probeAfter i) w.agent w.method }
  if ri.exitCode ≠ 0 then
    setFailureResult res ri.exitCode (w.updateCmdSingle.getD []) ri.classifyOut timeout
  else if res.Before ≠ "" ∧ res.After ≠ "" ∧ res.Before = res.After ∧
      res.Before ≠ "unknown" then
    { res with Status := statusUnchanged }
  else { res with Status := statusUpdated }

/-- One agent's Result on the batch-success / non-batch finish path of
`runTask`. -/
def taskFinishResult (te : TaskEnv) (timeout : Nat) (r : UpdRes) (cmd : List String)
    (i : Nat) (w : agentWork) : Result :=
  let res0 := preparedResult te i w
  let res := { res0 with
    Duration := r.duration
    Log := r.out
    After := getVersion te.env (te.probeAfter i) w.agent w.method }
  if r.exitCode ≠ 0 then setFailureResult res r.exitCode cmd r.classifyOut timeout
  else if res.Before ≠ "" ∧ res.After ≠ "" ∧ res.Before = res.After ∧
      res.Before ≠ "unknown" then
    { res with Status := statusUnchanged }
  else { res with Status := statusUpdated }

/-- `runTask` from the source (nil `events` channel of the non-UI path;
per-kind locking has no observable effect here because the tasks are
applied sequentially and write disjoint result slots; the `prepared`
probes are captured by the position-indexed oracles). -/
def runTask (te : TaskEnv) (timeout : Nat) (task : updateTask)
    (results : List Result) : List Result :=
  if task.agents.isEmpty then results
  else
    let r := runUpdateCmd te.fs te.batchRuns (task.cmd.getD [])
    if r.exitCode ≠ 0 ∧ task.agents.length > 1 ∧ isNodeKind task.kind then
      task.agents.enum.foldl
        (fun results iw =>
          results.set iw.2.index (batchFallbackResult te timeout r iw.1 iw.2))
        results
    else
      task.agents.enum.foldl
        (fun results iw =>
          results.set iw.2.index (taskFinishResult te timeout r (task.cmd.getD []) iw.1 iw.2))
        results

/-- Run-wide oracles for `runAllWithEvents`. -/
structure RunEnv where
  env : Env := {}
  /-- per agent index: `CombinedOutput` oracle of the dry-run version probe. -/
  dryProbe : Nat → List String → Option String := fun _ _ => none
  /-- Modelled opaquely: the dry-run `After` adjustment for node kinds
  (`nodeLatestVersion`, which shells out, composed with the regex-based
  `formatVersionWithToken`; the result keeps `Before` when no latest
  version is found).  No claim inspects this value. -/
  dryAfter : Nat → String → String := fun _ before => before
  /-- per task position: that task's execution oracles. -/
  taskEnv : Nat → TaskEnv := fun _ => {}

/-- The detect/skip/dry-run pass of `runAllWithEvents` over the prepared
works (events to a nil channel are dropped). -/
def detectResults (re : RunEnv) (opts : Options) (works : List agentWork)
    (results : List Result) : List Result :=
  works.foldl
    (fun results w =>
      let res : Result :=
        { Agent := w.agent
          Method := w.method
          Explain := w.explain
          UpdateCmd := cmdString w.updateCmd }
      if w.updateCmdSingle = none then
        let res := { res with
          Status := statusSkipped
          Reason := if w.reason = "" then reasonMissing else w.reason }
        results.set w.index res
      else if opts.DryRun then
        let before := getVersion re.env (re.dryProbe w.index) w.agent w.method
        let res := { res with
          Status := statusUpdated
          Reason := "dry-run"
          Before := before
          After := if isNodeKind w.method then re.dryAfter w.index before else before }
        results.set w.index res
      else results)
    results

/-- `runAllWithEvents` from the source (non-UI path, nil events).  The
worker pool writes disjoint result slots (every agent index sits in
exactly one task), so the pool is observationally a fold over the tasks;
in dry-run mode it returns before the pool ever starts. -/
def runAllWithEvents (re : RunEnv) (selected : List Agent) (opts : Options) : List Result :=
  let works := assignWorkCmds (buildWorks re.env selected)
  let tasks := buildTasks works
  let results := detectResults re opts works (List.replicate selected.length {})
  if opts.DryRun then results
  else
    tasks.enum.foldl
      (fun results titask => runTask (re.taskEnv titask.1) opts.Timeout titask.2 results)
      results

/-- The Result written for one work by the detect pass in dry-run mode:
a skip record for unresolvable agents, a "dry-run" preview record for
resolvable ones (see `detectResults`). -/
def dryDetectResult (re : RunEnv) (w : agentWork) : Result :=
  if w.updateCmdSingle = none then
    { Agent := w.agent
      Method := w.method
      Explain := w.explain
      UpdateCmd := cmdString w.updateCmd
      Status := statusSkipped
      Reason := if w.reason = "" then reasonMissing else w.reason }
  else
    { Agent := w.agent
      Method := w.method
      Explain := w.explain
      UpdateCmd := cmdString w.updateCmd
      Status := statusUpdated
      Reason := "dry-run"
      Before := getVersion re.env (re.dryProbe w.index) w.agent w.method
      After :=
        if isNodeKind w.method then
          re.dryAfter w.index (getVersion re.env (re.dryProbe w.index) w.agent w.method)
        else getVersion re.env (re.dryProbe w.index) w.agent w.method }

/-! ## Concrete scenarios used by witnesses and counterexamples -/

def teC2 : TaskEnv :=
  { batchRuns := fun _ => ExecOutcome.exited "batch boom" 1 7
    indRuns := fun i _ =>
      if i = 0 then ExecOutcome.success "ok" 1 else ExecOutcome.exited "bad" 1 1 }

def taskC2 : updateTask :=
  { kind := KindNpm
    cmd := some ["npm", "install", "-g", "a@latest", "b@latest"]
    agents :=
      [{ index := 0, method := KindNpm,
         updateCmdSingle := some ["npm", "install", "-g", "a@latest"] },
       { index := 1, method := KindNpm,
         updateCmdSingle := some ["npm", "install", "-g", "b@latest"] }] }

def teC6 : TaskEnv :=
  { probeBefore := fun _ _ => some "1.0.0"
    probeAfter := fun _ _ => some "1.0.0" }

def wC6 : agentWork :=
  { agent := { Name := "tool", VersionCmd := ["tool", "--version"] } }

def envC3 : Env :=
  { hasNpm := true
    hasPnpm := true
    binPath := fun n => if n = "tool" then "/g/bin/tool" else ""
    npmBin := "/g/bin"
    pnpmBin := "/g/bin"
    npmPkgs := fun p => decide (p = "p") }

def agentC3 : Agent :=
  { Name := "tool", Binary := "tool",
    Strategies := [{ Kind := KindNpm, Package := "p" }] }

def envC4 : Env :=
  { binPath := fun n => if n = "b" then "/usr/bin/b" else "" }

def agentC4 : Agent :=
  { Name := "b", Binary := "b",
    Strategies := [{ Kind := KindNpm, Package := "p" },
      { Kind := KindVSCode, ExtensionID := "x.y" }] }

def worksC5 : List agentWork :=
  [{ index := 0, method := KindNpm, nodePackageName := "b",
     updateCmdSingle := some ["npm", "install", "-g", "b@latest"] },
   { index := 1, method := KindNpm, nodePackageName := "a",
     updateCmdSingle := some ["npm", "install", "-g", "a@latest"] },
   { index := 2, method := KindNpm, nodePackageName := "a",
     updateCmdSingle := some ["npm", "install", "-g", "a@latest"] }]


/-! ## Theorems: claim C1 -/

/-- If the safety check passes, all the conditions the spec lists hold. -/
theorem isSafeNpmRenameTarget_spec (path dest : String)
    (h : isSafeNpmRenameTarget path dest = true) :
    isAbsPath path = true ∧ isAbsPath dest = true ∧ goDir path = goDir dest ∧
      goStartsWith (goBase dest) ("." ++ goBase path) = true := by
  simp only [isSafeNpmRenameTarget] at h
  split_ifs at h with h1 h2 h3 h4 h5
  all_goals try simp at h
  refine ⟨?_, ?_, not_not.mp h3, by simpa using h5⟩
  · simpa using (not_or.mp h2).2
  · simpa using (not_or.mp h2).1

/-- Removal happens only on a safe pair whose destination exists. -/
theorem cleanupNpmENotEmpty_only_safe (fs : FS) (output : String) (d : String)
    (hd : d ∈ (cleanupNpmENotEmpty fs output).2) :
    d = (extractNpmRenamePaths output).2 ∧
      isSafeNpmRenameTarget (extractNpmRenamePaths output).1
        (extractNpmRenamePaths output).2 = true ∧
      fs.statOk (extractNpmRenamePaths output).2 = true := by
  simp only [cleanupNpmENotEmpty] at hd
  split_ifs at hd with h1 h2
  · simp at hd
  · simp at hd
  · rcases hmatch : fs.removeErr (extractNpmRenamePaths output).2 with _ | e <;>
      rw [hmatch] at hd <;> simp only [List.mem_singleton] at hd <;>
      exact ⟨hd, by simpa using h1, by simpa using h2⟩

/-- Unsafe pair: cleanup is skipped entirely (no removal). -/
theorem cleanupNpmENotEmpty_unsafe_skips (fs : FS) (output : String)
    (h : isSafeNpmRenameTarget (extractNpmRenamePaths output).1
        (extractNpmRenamePaths output).2 = false) :
    (cleanupNpmENotEmpty fs output).2 = [] := by
  unfold cleanupNpmENotEmpty
  simp [h]

/-- C1: for a failing npm global mutate command whose output contains an
ENOTEMPTY/rename marker, `runUpdateCmd` performs exactly one automatic
retry (two `runCmd` invocations), and `cleanupNpmENotEmpty` removes the
extracted rename destination only when the extracted pair passes the
safety check (both absolute, same parent directory, destination base name
is "." followed by the source base name) and the destination exists; an
unsafe pair never triggers deletion, and the retry still happens once. -/
theorem runUpdateCmd_enotempty_one_retry_safe_cleanup
    (fs : FS) (runs : Nat → ExecOutcome) (args : List String) (p d : String)
    (hmut : isNpmGlobalMutate args = true)
    (hfail : (runCmd (runs 0)).2.1 ≠ 0)
    (hmark : goContains (runCmd (runs 0)).1 "ENOTEMPTY" = true ∨
      goContains (runCmd (runs 0)).1 "errno -66" = true ∨
      goContains (runCmd (runs 0)).1 "directory not empty" = true)
    (hpd : extractNpmRenamePaths (runCmd (runs 0)).1 = (p, d)) :
    (runUpdateCmd fs runs args).attempts = 2 ∧
    (runUpdateCmd fs runs args).removed = (cleanupNpmENotEmpty fs (runCmd (runs 0)).1).2 ∧
    (∀ x ∈ (runUpdateCmd fs runs args).removed,
      x = d ∧ isSafeNpmRenameTarget p d = true ∧ fs.statOk d = true ∧
      isAbsPath p = true ∧ isAbsPath d = true ∧ goDir p = goDir d ∧
      goStartsWith (goBase d) ("." ++ goBase p) = true) ∧
    (isSafeNpmRenameTarget p d = false → (runUpdateCmd fs runs args).removed = []) := by
  have hretry : shouldRetryNpm args (runCmd (runs 0)).1 = true := by
    unfold shouldRetryNpm
    rcases hmark with h | h | h <;> simp [hmut, h]
  have hrun : runUpdateCmd fs runs args =
      ⟨formatRetryOutput (runCmd (runs 0)).1
          (cleanupNpmENotEmpty fs (runCmd (runs 0)).1).1 (runCmd (runs 1)).1,
        if goTrim (runCmd (runs 1)).1 = "" then (runCmd (runs 0)).1 else (runCmd (runs 1)).1,
        (runCmd (runs 1)).2.1, (runCmd (runs 0)).2.2 + (runCmd (runs 1)).2.2, 2,
        (cleanupNpmENotEmpty fs (runCmd (runs 0)).1).2⟩ := by
    unfold runUpdateCmd
    simp only [hretry, if_true]
    rw [if_neg hfail]
  refine ⟨by rw [hrun], by rw [hrun], ?_, ?_⟩
  · intro x hx
    rw [hrun] at hx
    have h := cleanupNpmENotEmpty_only_safe fs (runCmd (runs 0)).1 x hx
    rw [hpd] at h
    obtain ⟨hx1, hsafe, hstat⟩ := h
    obtain ⟨ha, hb, hc, hd2⟩ := isSafeNpmRenameTarget_spec p d hsafe
    exact ⟨hx1, hsafe, hstat, ha, hb, hc, hd2⟩
  · intro hunsafe
    rw [hrun]
    exact cleanupNpmENotEmpty_unsafe_skips fs (runCmd (runs 0)).1 (by rw [hpd]; exact hunsafe)

/-- Witness: a failing `npm install -g` with an ENOTEMPTY rename error is
retried exactly once. -/
theorem runUpdateCmd_enotempty_one_retry_safe_cleanup_witness :
    (runUpdateCmd { statOk := fun p => p = "/a/.pkg-x", removeErr := fun _ => none }
        (fun n => if n = 0 then
            ExecOutcome.exited
              "npm error ENOTEMPTY: rename \x27/a/pkg\x27 -> \x27/a/.pkg-x\x27" 1 5
          else ExecOutcome.success "ok" 3)
        ["npm", "install", "-g", "pkg@latest"]).attempts = 2 :=
  (runUpdateCmd_enotempty_one_retry_safe_cleanup
    { statOk := fun p => p = "/a/.pkg-x", removeErr := fun _ => none }
    (fun n => if n = 0 then
        ExecOutcome.exited
          "npm error ENOTEMPTY: rename \x27/a/pkg\x27 -> \x27/a/.pkg-x\x27" 1 5
      else ExecOutcome.success "ok" 3)
    ["npm", "install", "-g", "pkg@latest"] "/a/pkg" "/a/.pkg-x"
    (by decide) (by decide) (Or.inl (by decide)) (by decide)).1

/-! ## Theorems: claims C7 and C8 -/

/-- C7: timeout and cancellation are decided structurally before any
content classification: an error matching a deadline maps to exit code
124 and reason "timeout", a cancellation to 130 and "canceled", in both
cases independently of the captured output (no content table consulted);
only other exits go through `classifyUpdateFailure`, and with no content
match the reason is the literal exit code. -/
theorem setFailureResult_structural_before_content
    (res : Result) (cmd : List String) (output output2 : String) (timeout : Nat)
    (code : Int) (o : String) (d : Nat) :
    ((runCmd (ExecOutcome.deadline o d)).2.1 = exitCodeTimeout ∧
      (runCmd (ExecOutcome.canceledErr o d)).2.1 = exitCodeCanceled) ∧
    ((setFailureResult res exitCodeTimeout cmd output timeout).Reason = "timeout" ∧
      setFailureResult res exitCodeTimeout cmd output timeout =
        setFailureResult res exitCodeTimeout cmd output2 timeout) ∧
    ((setFailureResult res exitCodeCanceled cmd output timeout).Reason = "canceled" ∧
      setFailureResult res exitCodeCanceled cmd output timeout =
        setFailureResult res exitCodeCanceled cmd output2 timeout) ∧
    (code ≠ exitCodeTimeout → code ≠ exitCodeCanceled →
      classifyUpdateFailure cmd output = ("", "") →
      (setFailureResult res code cmd output timeout).Reason = "exit " ++ toString code) := by
  refine ⟨⟨rfl, rfl⟩, ⟨?_, ?_⟩, ⟨?_, ?_⟩, ?_⟩
  · simp [setFailureResult]
  · simp [setFailureResult]
  · have : exitCodeCanceled ≠ exitCodeTimeout := by decide
    simp [setFailureResult, this]
  · have : exitCodeCanceled ≠ exitCodeTimeout := by decide
    simp [setFailureResult, this]
  · intro h1 h2 h3
    simp [setFailureResult, h1, h2, h3]

/-- Witness: an uncategorized exit 7 is reported as its literal code. -/
theorem setFailureResult_structural_before_content_witness :
    (setFailureResult {} 7 ["x"] "boom" 0).Reason = "exit " ++ toString (7 : Int) :=
  (setFailureResult_structural_before_content {} ["x"] "boom" "" 0 7 "" 0).2.2.2
    (by decide) (by decide) (by decide)

/-- C8: the process exits non-zero iff at least one agent's final Result
has status "failed"; runs whose results are all
skipped/unchanged/updated exit zero. -/
theorem processExitCode_nonzero_iff_failed (results : List Result) :
    (processExitCode results ≠ 0 ↔ ∃ res ∈ results, res.Status = statusFailed) ∧
    ((∀ res ∈ results, res.Status ≠ statusFailed) → processExitCode results = 0) := by
  have hiff : hasFailures results = true ↔ ∃ res ∈ results, res.Status = statusFailed := by
    simp [hasFailures, List.any_eq_true]
  constructor
  · constructor
    · intro hne
      cases hh : hasFailures results with
      | false => exact absurd (by simp [processExitCode, hh]) hne
      | true => exact hiff.mp hh
    · intro hex
      simp [processExitCode, hiff.mpr hex]
  · intro hall
    have hfa : hasFailures results = false := by
      by_contra hb
      rcases hiff.mp (by simpa using hb) with ⟨r, hr, hs⟩
      exact hall r hr hs
    simp [processExitCode, hfa]

/-- Witness: a run with only updated and skipped results exits zero. -/
theorem processExitCode_nonzero_iff_failed_witness :
    processExitCode [{ Status := statusUpdated }, { Status := statusSkipped }] = 0 :=
  (processExitCode_nonzero_iff_failed _).2 (by decide)

/-! ## Theorems: claim C9 -/

theorem getLast?_getD_cons {α} (a : α) (xs : List α) (v : α) :
    (a :: xs).getLast?.getD v = xs.getLast?.getD a := by
  cases xs with
  | nil => rfl
  | cons x xs =>
    rw [List.getLast?_cons_cons]
    cases hgl : (x :: xs).getLast? with
    | none => exact absurd (List.getLast?_eq_none_iff.mp hgl) (by simp)
    | some y => simp

/-- The running `(first, versionOnly)` fold computes the first non-blank
trimmed line and the last version-only line. -/
theorem parseLinesStep_fold_spec (ls : List String) (f v : String) :
    ls.foldl parseLinesStep (f, v) =
      ((if f = "" then (((ls.map goTrim).filter (· ≠ "")).headD "") else f),
        ((((ls.map goTrim).filter (· ≠ "")).filter isVersionOnlyLine).getLast?.getD v)) := by
  induction ls generalizing f v with
  | nil =>
    simp only [List.foldl_nil, List.map_nil, List.filter_nil, List.headD_nil,
      List.getLast?_nil, Option.getD_none]
    by_cases hf : f = "" <;> simp [hf]
  | cons l rest ih =>
    simp only [List.foldl_cons, List.map_cons]
    by_cases hl : goTrim l = ""
    · rw [show parseLinesStep (f, v) l = (f, v) by simp [parseLinesStep, hl], ih,
        show List.filter (fun x => decide (x ≠ "")) (goTrim l :: List.map goTrim rest) =
            List.filter (fun x => decide (x ≠ "")) (List.map goTrim rest) by
          rw [List.filter_cons, if_neg (show ¬(decide (goTrim l ≠ "") = true) by simp [hl])]]
    · rw [show parseLinesStep (f, v) l =
          ((if f = "" then goTrim l else f),
            (if isVersionOnlyLine (goTrim l) then goTrim l else v)) by
        simp [parseLinesStep, hl], ih]
      have hfc : List.filter (fun x => decide (x ≠ "")) (goTrim l :: List.map goTrim rest) =
          goTrim l :: List.filter (fun x => decide (x ≠ "")) (List.map goTrim rest) := by
        rw [List.filter_cons, if_pos (by simpa using hl)]
      rw [hfc]
      simp only [Prod.mk.injEq]
      constructor
      · by_cases hf : f = "" <;> simp [hf, hl]
      · by_cases hvo : isVersionOnlyLine (goTrim l) = true
        · rw [if_pos hvo, List.filter_cons, if_pos hvo, getLast?_getD_cons]
        · rw [if_neg hvo, List.filter_cons, if_neg hvo]

theorem runVersionCmd_ne_empty (probe : List String → Option String)
    (args : List String) : runVersionCmd probe args ≠ "" := by
  have hparse : ∀ o : String, parseVersionOutput o ≠ "" := by
    intro o
    simp only [parseVersionOutput]
    split_ifs with h1 h2 h3
    · decide
    · exact h2
    · exact h3
    · decide
  cases args with
  | nil => exact (by decide : ("unknown" : String) ≠ "")
  | cons a rest =>
    cases hp : probe (a :: rest) with
    | none => simp [runVersionCmd, hp]
    | some out => simpa [runVersionCmd, hp] using hparse out

/-- C9: `getVersion` never returns the empty string: each probe-failure
path (no version command, command error, blank output) yields the
sentinel "unknown", and when output parses, the result is the last
version-only line if any, else the first non-blank trimmed line. -/
theorem getVersion_never_empty (e : Env) (probe : List String → Option String)
    (agent : Agent) (method : String) (args : List String) (out : String) :
    getVersion e probe agent method ≠ "" ∧
    runVersionCmd probe [] = "unknown" ∧
    (probe args = none → args ≠ [] → runVersionCmd probe args = "unknown") ∧
    (goTrim out = "" → parseVersionOutput out = "unknown") ∧
    parseVersionOutput out ≠ "" ∧
    (goTrim out ≠ "" →
      parseVersionOutput out =
        (let cleaned := ((goSplitOn (goTrim out) "\n").map goTrim).filter (· ≠ "")
         let vos := cleaned.filter isVersionOnlyLine
         if vos ≠ [] then vos.getLast?.getD ""
         else if cleaned ≠ [] then cleaned.headD "" else "unknown")) := by
  have hparse : ∀ o : String, parseVersionOutput o ≠ "" := by
    intro o
    simp only [parseVersionOutput]
    split_ifs with h1 h2 h3
    · decide
    · exact h2
    · exact h3
    · decide
  refine ⟨?_, rfl, ?_, ?_, hparse out, ?_⟩
  · unfold getVersion
    split_ifs with h1 h2 h3
    · exact h1.2.2
    · exact runVersionCmd_ne_empty probe agent.VersionCmd
    · exact h3.2
    · decide
  · intro hp hne
    cases args with
    | nil => exact absurd rfl hne
    | cons a rest => simp [runVersionCmd, hp]
  · intro htrim
    simp only [parseVersionOutput]
    simp [htrim]
  · intro htrim
    simp only [parseVersionOutput]
    rw [if_neg htrim]
    have hfold := parseLinesStep_fold_spec (goSplitOn (goTrim out) "\n") "" ""
    set cleaned := ((goSplitOn (goTrim out) "\n").map goTrim).filter (· ≠ "") with hcl
    set vos := cleaned.filter isVersionOnlyLine with hvos
    obtain ⟨hfst, hsnd⟩ :
        ((List.foldl parseLinesStep ("", "") (goSplitOn (goTrim out) "\n")).1 =
            cleaned.headD "" ∧
          (List.foldl parseLinesStep ("", "") (goSplitOn (goTrim out) "\n")).2 =
            vos.getLast?.getD "") := by
      rw [hfold]
      exact ⟨by simp, rfl⟩
    rw [hfst, hsnd]
    clear_value cleaned vos
    have hvmem : ∀ x ∈ vos, x ≠ "" := by
      intro x hx
      rw [hvos] at hx
      have hxc := List.mem_of_mem_filter hx
      rw [hcl] at hxc
      simpa using (List.mem_filter.mp hxc).2
    by_cases hv : vos = []
    · have h2 : vos.getLast?.getD "" = "" := by simp [hv]
      rw [h2, if_neg (show ¬(("" : String) ≠ "") by simp),
        if_neg (show ¬(vos ≠ []) by simp [hv])]
      by_cases hc : cleaned = []
      · have hh : cleaned.headD "" = "" := by rw [hc]; rfl
        rw [if_neg (show ¬(cleaned ≠ []) by simp [hc]), hh,
          if_neg (show ¬(("" : String) ≠ "") by simp)]
      · have hhead : cleaned.headD "" ≠ "" := by
          cases hcc : cleaned with
          | nil => exact absurd hcc hc
          | cons c cs =>
            have hcm : c ∈ cleaned := by rw [hcc]; exact List.mem_cons_self c cs
            rw [hcl] at hcm
            have hcne : c ≠ "" := by simpa using (List.mem_filter.mp hcm).2
            simpa using hcne
        rw [if_pos hhead, if_pos hc]
    · have hlast : vos.getLast?.getD "" ≠ "" := by
        cases hgl : vos.getLast? with
        | none => exact absurd (List.getLast?_eq_none_iff.mp hgl) hv
        | some x =>
          have hxo : x ∈ vos.getLast? := by rw [hgl]; rfl
          obtain ⟨hne, hxe⟩ := List.mem_getLast?_eq_getLast hxo
          have hxm : x ∈ vos := hxe ▸ List.getLast_mem hne
          simpa [hgl] using hvmem x hxm
      rw [if_pos hlast, if_pos hv]

/-! ## Theorems: claims C2 and C6 -/

theorem foldl_set_getElem?_other {α β : Type _} (idx : β → Nat) (f : β → α)
    (xs : List β) (acc : List α) (j : Nat) (h : ∀ y ∈ xs, idx y ≠ j) :
    (xs.foldl (fun a x => a.set (idx x) (f x)) acc)[j]? = acc[j]? := by
  induction xs generalizing acc with
  | nil => rfl
  | cons x xs ih =>
    simp only [List.foldl_cons]
    rw [ih _ (fun y hy => h y (List.mem_cons_of_mem x hy)),
      List.getElem?_set_ne (h x (List.mem_cons_self x xs))]

/-- Writing disjoint slots in a fold: each element's slot holds its own
written value afterwards. -/
theorem foldl_set_getElem? {α β : Type _} (idx : β → Nat) (f : β → α)
    (l : List β) (init : List α) (hnd : (l.map idx).Nodup) (b : β) (hb : b ∈ l)
    (hlt : idx b < init.length) :
    (l.foldl (fun a x => a.set (idx x) (f x)) init)[idx b]? = some (f b) := by
  induction l generalizing init with
  | nil => cases hb
  | cons x xs ih =>
    simp only [List.foldl_cons]
    have hnd2 : (idx x ∉ xs.map idx) ∧ (xs.map idx).Nodup := by
      rw [List.map_cons] at hnd
      exact List.nodup_cons.mp hnd
    rcases List.mem_cons.mp hb with rfl | hb'
    · have hno : ∀ y ∈ xs, idx y ≠ idx b := by
        intro y hy heq
        exact hnd2.1 (heq ▸ List.mem_map_of_mem idx hy)
      rw [foldl_set_getElem?_other idx f xs _ _ hno,
        List.getElem?_set_eq_of_lt _ hlt]
    · exact ih (init.set (idx x) (f x)) hnd2.2 hb'
        (by rw [List.length_set]; exact hlt)

theorem setFailureResult_status_failed (res : Result) (code : Int)
    (cmd : List String) (out : String) (t : Nat) :
    (setFailureResult res code cmd out t).Status = statusFailed := by
  simp only [setFailureResult]
  split_ifs <;> rfl

theorem setFailureResult_reason_const (res res' : Result) (code : Int)
    (cmd : List String) (out : String) (t : Nat) :
    (setFailureResult res code cmd out t).Reason =
      (setFailureResult res' code cmd out t).Reason := by
  simp only [setFailureResult]
  split_ifs <;> rfl

/-- C2: when a batched task (at least two agents, node kind) fails, no
agent is marked failed from the batch exit alone: `runTask` rebuilds one
Result per agent by re-running that agent's own singleton command, each
slot receives its agent's individually-rebuilt Result, the status comes
from the individual exit (updated/unchanged on individual success even
though the batch failed, failed with the classified reason otherwise),
and the Explain log records that an individual retry followed the batch
failure. -/
theorem runTask_batch_failure_individual_retry
    (te : TaskEnv) (timeout : Nat) (task : updateTask) (results : List Result)
    (hfail : (runUpdateCmd te.fs te.batchRuns (task.cmd.getD [])).exitCode ≠ 0)
    (hlen : task.agents.length > 1) (hkind : isNodeKind task.kind = true)
    (hnd : (task.agents.enum.map fun iw => iw.2.index).Nodup)
    (hbound : ∀ w ∈ task.agents, w.index < results.length) :
    (runTask te timeout task results =
      task.agents.enum.foldl
        (fun acc iw => acc.set iw.2.index
          (batchFallbackResult te timeout
            (runUpdateCmd te.fs te.batchRuns (task.cmd.getD [])) iw.1 iw.2))
        results) ∧
    (∀ iw ∈ task.agents.enum,
      (runTask te timeout task results)[iw.2.index]? =
        some (batchFallbackResult te timeout
          (runUpdateCmd te.fs te.batchRuns (task.cmd.getD [])) iw.1 iw.2)) ∧
    (∀ (r : UpdRes) (i : Nat) (w : agentWork),
      ((runUpdateCmd te.fs (te.indRuns i) (w.updateCmdSingle.getD [])).exitCode ≠ 0 →
        (batchFallbackResult te timeout r i w).Status = statusFailed ∧
        (batchFallbackResult te timeout r i w).Reason =
          (setFailureResult {}
            (runUpdateCmd te.fs (te.indRuns i) (w.updateCmdSingle.getD [])).exitCode
            (w.updateCmdSingle.getD [])
            (runUpdateCmd te.fs (te.indRuns i) (w.updateCmdSingle.getD [])).classifyOut
            timeout).Reason) ∧
      ((runUpdateCmd te.fs (te.indRuns i) (w.updateCmdSingle.getD [])).exitCode = 0 →
        (batchFallbackResult te timeout r i w).Explain =
          appendHint w.explain "batch update failed; retrying individually" ∧
        ((batchFallbackResult te timeout r i w).Status = statusUnchanged ∨
          (batchFallbackResult te timeout r i w).Status = statusUpdated) ∧
        ((batchFallbackResult te timeout r i w).Status = statusUnchanged ↔
          (getVersion te.env (te.probeBefore i) w.agent w.method =
              getVersion te.env (te.probeAfter i) w.agent w.method ∧
            getVersion te.env (te.probeBefore i) w.agent w.method ≠ "" ∧
            getVersion te.env (te.probeBefore i) w.agent w.method ≠ "unknown")))) := by
  have hne : ¬(task.agents.isEmpty = true) := by
    cases h : task.agents with
    | nil => rw [h] at hlen; simp at hlen
    | cons a l => simp [h]
  have hrt : runTask te timeout task results =
      task.agents.enum.foldl
        (fun acc iw => acc.set iw.2.index
          (batchFallbackResult te timeout
            (runUpdateCmd te.fs te.batchRuns (task.cmd.getD [])) iw.1 iw.2))
        results := by
    simp only [runTask]
    rw [if_neg hne, if_pos ⟨hfail, hlen, hkind⟩]
  refine ⟨hrt, ?_, ?_⟩
  · intro iw hiw
    rw [hrt]
    exact foldl_set_getElem? (fun iw => iw.2.index)
      (fun iw => batchFallbackResult te timeout
        (runUpdateCmd te.fs te.batchRuns (task.cmd.getD [])) iw.1 iw.2)
      task.agents.enum results hnd iw hiw
      (hbound iw.2 (by
        have h2 := List.mem_map_of_mem Prod.snd hiw
        rwa [List.enum_map_snd] at h2))
  · intro r i w
    constructor
    · intro hie
      simp only [batchFallbackResult]
      rw [if_pos hie]
      exact ⟨setFailureResult_status_failed .., setFailureResult_reason_const ..⟩
    · intro hie
      simp only [batchFallbackResult]
      rw [if_neg (show ¬((runUpdateCmd te.fs (te.indRuns i)
          (w.updateCmdSingle.getD [])).exitCode ≠ 0) by simp [hie])]
      by_cases hcond : (preparedResult te i w).Before ≠ "" ∧
          getVersion te.env (te.probeAfter i) w.agent w.method ≠ "" ∧
          (preparedResult te i w).Before =
            getVersion te.env (te.probeAfter i) w.agent w.method ∧
          (preparedResult te i w).Before ≠ "unknown"
      · rw [if_pos hcond]
        refine ⟨rfl, Or.inl rfl, ?_⟩
        constructor
        · intro _
          exact ⟨hcond.2.2.1, hcond.1, hcond.2.2.2⟩
        · intro _
          rfl
      · rw [if_neg hcond]
        refine ⟨rfl, Or.inr rfl, ?_⟩
        constructor
        · intro hs
          have hs' : statusUpdated = statusUnchanged := hs
          exact absurd hs' (by decide)
        · intro hc
          exact absurd ⟨hc.2.1, hc.1 ▸ hc.2.1, hc.1, hc.2.2⟩ hcond



/-- Witness: a two-agent npm batch whose combined command fails leaves
each slot holding that agent's individually-retried Result. -/
theorem runTask_batch_failure_individual_retry_witness :
    (runTask teC2 0 taskC2 [{}, {}])[0]? =
      some (batchFallbackResult teC2 0
        (runUpdateCmd teC2.fs teC2.batchRuns (taskC2.cmd.getD [])) 0
        { index := 0, method := KindNpm,
          updateCmdSingle := some ["npm", "install", "-g", "a@latest"] }) :=
  (runTask_batch_failure_individual_retry teC2 0 taskC2 [{}, {}]
    (by decide) (by decide) (by decide) (by decide) (by decide)).2.1
    (0, { index := 0, method := KindNpm,
          updateCmdSingle := some ["npm", "install", "-g", "a@latest"] })
    (by decide)

/-- C6: when the update command exits zero, `runTask` takes the finish
path, the version is re-probed after execution, and the status is
"unchanged" exactly when the before-version equals the after-version and
the before-version is concrete (non-empty and not "unknown"); in every
other success case the status is "updated". -/
theorem runTask_unchanged_vs_updated
    (te : TaskEnv) (timeout : Nat) (task : updateTask) (results : List Result)
    (r : UpdRes) (cmd : List String) (i : Nat) (w : agentWork)
    (hr : r.exitCode = 0)
    (hb : (runUpdateCmd te.fs te.batchRuns (task.cmd.getD [])).exitCode = 0) :
    (¬(task.agents.isEmpty = true) →
      runTask te timeout task results =
        task.agents.enum.foldl
          (fun acc iw => acc.set iw.2.index
            (taskFinishResult te timeout
              (runUpdateCmd te.fs te.batchRuns (task.cmd.getD []))
              (task.cmd.getD []) iw.1 iw.2))
          results) ∧
    ((taskFinishResult te timeout r cmd i w).After =
      getVersion te.env (te.probeAfter i) w.agent w.method) ∧
    ((taskFinishResult te timeout r cmd i w).Status = statusUnchanged ∨
      (taskFinishResult te timeout r cmd i w).Status = statusUpdated) ∧
    ((taskFinishResult te timeout r cmd i w).Status = statusUnchanged ↔
      (getVersion te.env (te.probeBefore i) w.agent w.method =
          getVersion te.env (te.probeAfter i) w.agent w.method ∧
        getVersion te.env (te.probeBefore i) w.agent w.method ≠ "" ∧
        getVersion te.env (te.probeBefore i) w.agent w.method ≠ "unknown")) := by
  refine ⟨?_, ?_, ?_, ?_⟩
  · intro hne
    simp only [runTask]
    rw [if_neg hne, if_neg (show ¬((runUpdateCmd te.fs te.batchRuns
      (task.cmd.getD [])).exitCode ≠ 0 ∧ task.agents.length > 1 ∧
        isNodeKind task.kind = true) from fun hc => hc.1 hb)]
  · simp only [taskFinishResult]
    rw [if_neg (show ¬(r.exitCode ≠ 0) by simp [hr])]
    split_ifs <;> rfl
  · simp only [taskFinishResult]
    rw [if_neg (show ¬(r.exitCode ≠ 0) by simp [hr])]
    split_ifs with hcond
    · exact Or.inl rfl
    · exact Or.inr rfl
  · simp only [taskFinishResult]
    rw [if_neg (show ¬(r.exitCode ≠ 0) by simp [hr])]
    split_ifs with hcond
    · constructor
      · intro _
        exact ⟨hcond.2.2.1, hcond.1, hcond.2.2.2⟩
      · intro _
        rfl
    · constructor
      · intro hs
        have hs' : statusUpdated = statusUnchanged := hs
        exact absurd hs' (by decide)
      · intro hc
        exact absurd ⟨hc.2.1, hc.1 ▸ hc.2.1, hc.1, hc.2.2⟩ hcond



/-- Witness: equal concrete before/after versions on a successful run
yield status "unchanged". -/
theorem runTask_unchanged_vs_updated_witness :
    (taskFinishResult teC6 0
      { out := "", classifyOut := "", exitCode := 0, duration := 0, attempts := 1,
        removed := [] } [] 0 wC6).Status = statusUnchanged :=
  (runTask_unchanged_vs_updated teC6 0 {} []
    { out := "", classifyOut := "", exitCode := 0, duration := 0, attempts := 1,
      removed := [] } [] 0 wC6 rfl (by decide)).2.2.2.mpr (by decide)

/-- Witness: an erroring probe yields "unknown", blank output yields
"unknown", and banner + version output parses to the version-only line. -/
theorem getVersion_never_empty_witness :
    runVersionCmd (fun _ => none) ["tool", "--version"] = "unknown" ∧
    parseVersionOutput "   " = "unknown" ∧
    parseVersionOutput "tool banner\n1.2.3\n" = "1.2.3" := by
  refine ⟨(getVersion_never_empty {} (fun _ => none) {} "" ["tool", "--version"] "").2.2.1
    rfl (by decide), ?_, ?_⟩
  · exact (getVersion_never_empty {} (fun _ => none) {} "" [] "   ").2.2.2.1 (by decide)
  · decide

/-! ## Theorems: claim C10 -/

theorem mem_foldl_set {α β : Type _} (idx : β → Nat) (f : β → α) (l : List β)
    (init : List α) (x : α)
    (hx : x ∈ l.foldl (fun a y => a.set (idx y) (f y)) init) :
    x ∈ init ∨ ∃ y ∈ l, x = f y := by
  induction l generalizing init with
  | nil => exact Or.inl hx
  | cons y ys ih =>
    rcases ih (init.set (idx y) (f y)) (by simpa using hx) with hin | ⟨z, hz, rfl⟩
    · rcases List.mem_or_eq_of_mem_set hin with h | h
      · exact Or.inl h
      · exact Or.inr ⟨y, List.mem_cons_self y ys, h⟩
    · exact Or.inr ⟨z, List.mem_cons_of_mem y hz, rfl⟩

/-- In dry-run mode each detect step writes its work's
`dryDetectResult` into the work's slot. -/
theorem detectResults_dryRun_fold (re : RunEnv) (opts : Options)
    (hdry : opts.DryRun = true) (works : List agentWork) (results : List Result) :
    detectResults re opts works results =
      works.foldl (fun acc w => acc.set w.index (dryDetectResult re w)) results := by
  unfold detectResults
  congr 1
  funext acc w
  by_cases hw : w.updateCmdSingle = none
  · simp [dryDetectResult, hw]
  · simp [dryDetectResult, hw, hdry]

theorem assignWorkCmd_fields (works : List agentWork) (w : agentWork) :
    (assignWorkCmd works w).index = w.index ∧
    (assignWorkCmd works w).updateCmdSingle = w.updateCmdSingle ∧
    (assignWorkCmd works w).agent = w.agent ∧
    (assignWorkCmd works w).method = w.method ∧
    (assignWorkCmd works w).reason = w.reason := by
  unfold assignWorkCmd
  rcases hc : w.updateCmdSingle with _ | c
  · simp [hc]
  · split_ifs <;> simp [hc]

theorem buildWorks_map_index (e : Env) (sel : List Agent) :
    (buildWorks e sel).map agentWork.index = List.range sel.length := by
  unfold buildWorks
  rw [List.map_map]
  have hcomp : (agentWork.index ∘ fun iw : Nat × Agent => buildWork e iw.1 iw.2) =
      Prod.fst := by
    funext iw
    rfl
  rw [hcomp, List.enum_map_fst]

theorem assignWorkCmds_map_index (works : List agentWork) :
    (assignWorkCmds works).map agentWork.index = works.map agentWork.index := by
  unfold assignWorkCmds
  rw [List.map_map]
  exact List.map_congr_left fun w _ => (assignWorkCmd_fields works w).1

theorem dryDetectResult_status (re : RunEnv) (w : agentWork) :
    ((dryDetectResult re w).Status = statusSkipped ∨
      ((dryDetectResult re w).Status = statusUpdated ∧
        (dryDetectResult re w).Reason = "dry-run")) ∧
    ((dryDetectResult re w).Status = statusSkipped ↔ w.updateCmdSingle = none) ∧
    (dryDetectResult re w).Status ≠ statusFailed := by
  unfold dryDetectResult
  by_cases hw : w.updateCmdSingle = none
  · rw [if_pos hw]
    refine ⟨Or.inl rfl, ⟨fun _ => hw, fun _ => rfl⟩, ?_⟩
    intro h
    have h' : statusSkipped = statusFailed := h
    exact absurd h' (by decide)
  · rw [if_neg hw]
    refine ⟨Or.inr ⟨rfl, rfl⟩, ⟨fun hs => ?_, fun hn => absurd hn hw⟩, ?_⟩
    · have h' : statusUpdated = statusSkipped := hs
      exact absurd h' (by decide)
    · intro h
      have h' : statusUpdated = statusFailed := h
      exact absurd h' (by decide)

/-- C10: in dry-run mode the run returns the detect-pass results without
ever starting the worker pool; every selected agent's final Result is
either "skipped" (exactly the unresolvable agents) or "updated" with
reason "dry-run"; no Result is "failed" and the process exits zero. -/
theorem runAllWithEvents_dry_run (re : RunEnv) (selected : List Agent)
    (opts : Options) (hdry : opts.DryRun = true) :
    (runAllWithEvents re selected opts =
      detectResults re opts (assignWorkCmds (buildWorks re.env selected))
        (List.replicate selected.length {})) ∧
    (∀ res ∈ runAllWithEvents re selected opts, res.Status ≠ statusFailed) ∧
    hasFailures (runAllWithEvents re selected opts) = false ∧
    processExitCode (runAllWithEvents re selected opts) = 0 ∧
    (∀ j, (hj : j < selected.length) → ∃ res,
      (runAllWithEvents re selected opts)[j]? = some res ∧
      (res.Status = statusSkipped ∨
        (res.Status = statusUpdated ∧ res.Reason = "dry-run")) ∧
      (res.Status = statusSkipped ↔ (resolveUpdate selected[j] re.env).cmd = none)) := by
  have hrae : runAllWithEvents re selected opts =
      detectResults re opts (assignWorkCmds (buildWorks re.env selected))
        (List.replicate selected.length {}) := by
    simp only [runAllWithEvents]
    rw [hdry]
    simp
  have hfold : runAllWithEvents re selected opts =
      (assignWorkCmds (buildWorks re.env selected)).foldl
        (fun acc w => acc.set w.index (dryDetectResult re w))
        (List.replicate selected.length {}) := by
    rw [hrae, detectResults_dryRun_fold re opts hdry]
  have hmem : ∀ res ∈ runAllWithEvents re selected opts, res.Status ≠ statusFailed := by
    intro res hres
    rw [hfold] at hres
    rcases mem_foldl_set agentWork.index (dryDetectResult re) _ _ res hres with
      hin | ⟨w, _, rfl⟩
    · rw [List.eq_of_mem_replicate hin]
      intro h
      have h' : "" = statusFailed := h
      exact absurd h' (by decide)
    · exact (dryDetectResult_status re w).2.2
  have hhf : hasFailures (runAllWithEvents re selected opts) = false := by
    cases hb : hasFailures (runAllWithEvents re selected opts) with
    | false => rfl
    | true =>
      rcases (by simpa [hasFailures, List.any_eq_true] using hb :
          ∃ res ∈ runAllWithEvents re selected opts, res.Status = statusFailed) with
        ⟨r, hr, hs⟩
      exact absurd hs (hmem r hr)
  refine ⟨hrae, hmem, hhf, by simp [processExitCode, hhf], ?_⟩
  intro j hj
  have hwlen : (buildWorks re.env selected).length = selected.length := by
    simp [buildWorks]
  have hjw : j < (buildWorks re.env selected).length := by rw [hwlen]; exact hj
  have hja : j < (assignWorkCmds (buildWorks re.env selected)).length := by
    simp [assignWorkCmds]
    exact hjw
  have hwj : (buildWorks re.env selected).get ⟨j, hjw⟩ =
      buildWork re.env j selected[j] := by
    simp [List.get_eq_getElem, buildWorks, List.getElem_map, List.getElem_enum]
  have haj : (assignWorkCmds (buildWorks re.env selected)).get ⟨j, hja⟩ =
      assignWorkCmd (buildWorks re.env selected) (buildWork re.env j selected[j]) := by
    simp only [List.get_eq_getElem, assignWorkCmds, List.getElem_map]
    rw [show (buildWorks re.env selected)[j] = buildWork re.env j selected[j] from hwj]
  set b := assignWorkCmd (buildWorks re.env selected) (buildWork re.env j selected[j])
    with hbdef
  have hbidx : b.index = j := by
    rw [hbdef, (assignWorkCmd_fields _ _).1]
    rfl
  have hbucs : b.updateCmdSingle = (resolveUpdate selected[j] re.env).cmd := by
    rw [hbdef, (assignWorkCmd_fields _ _).2.1]
    rfl
  have hnd : ((assignWorkCmds (buildWorks re.env selected)).map agentWork.index).Nodup := by
    rw [assignWorkCmds_map_index, buildWorks_map_index]
    exact List.nodup_range _
  have hbmem : b ∈ assignWorkCmds (buildWorks re.env selected) := by
    rw [← haj]
    exact List.get_mem ..
  have hslot := foldl_set_getElem? agentWork.index (dryDetectResult re)
    (assignWorkCmds (buildWorks re.env selected)) (List.replicate selected.length {})
    hnd b hbmem (by rw [hbidx, List.length_replicate]; exact hj)
  rw [hbidx] at hslot
  refine ⟨dryDetectResult re b, ?_, (dryDetectResult_status re b).1, ?_⟩
  · rw [hfold]
    exact hslot
  · rw [(dryDetectResult_status re b).2.1, hbucs]

/-- Witness: a dry run over one agent with an empty environment exits
zero. -/
theorem runAllWithEvents_dry_run_witness :
    processExitCode (runAllWithEvents {}
      [{ Name := "amp", Binary := "amp",
         Strategies := [{ Kind := KindNative, Command := some ["amp", "update"] }] }]
      { DryRun := true }) = 0 :=
  (runAllWithEvents_dry_run {}
    [{ Name := "amp", Binary := "amp",
       Strategies := [{ Kind := KindNative, Command := some ["amp", "update"] }] }]
    { DryRun := true } rfl).2.2.2.1

/-! ## Theorems: claim C5 -/

theorem dropWhile_dropWhile {α} (p : α → Bool) (l : List α) :
    (l.dropWhile p).dropWhile p = l.dropWhile p := by
  induction l with
  | nil => rfl
  | cons x xs ih =>
    by_cases hp : p x = true
    · simp [List.dropWhile_cons, hp, ih]
    · simp [List.dropWhile_cons, hp]

theorem dropWhile_head_false {α} (p : α → Bool) (l : List α) (x : α) (xs : List α)
    (h : l.dropWhile p = x :: xs) : p x = false := by
  induction l with
  | nil => simp at h
  | cons y ys ih =>
    rw [List.dropWhile_cons] at h
    split_ifs at h with hy
    · exact ih h
    · cases h
      simpa using hy

/-- Trimming is idempotent. -/
theorem goTrim_idem (s : String) : goTrim (goTrim s) = goTrim s := by
  unfold goTrim
  congr 1
  set m := s.data.dropWhile Char.isWhitespace with hm
  set u := m.reverse.dropWhile Char.isWhitespace with hu
  show ((u.reverse.dropWhile Char.isWhitespace).reverse.dropWhile Char.isWhitespace).reverse =
    u.reverse
  have hsplit : u.reverse ++ (m.reverse.takeWhile Char.isWhitespace).reverse = m := by
    rw [hu, ← List.reverse_append, List.takeWhile_append_dropWhile, List.reverse_reverse]
  have h1 : u.reverse.dropWhile Char.isWhitespace = u.reverse := by
    cases hr : u.reverse with
    | nil => rfl
    | cons h r2 =>
      have hm2 : m = h :: (r2 ++ (m.reverse.takeWhile Char.isWhitespace).reverse) := by
        conv_lhs => rw [← hsplit]
        rw [hr, List.cons_append]
      have hfalse : Char.isWhitespace h = false :=
        dropWhile_head_false _ s.data _ _ (by rw [← hm]; exact hm2)
      rw [List.dropWhile_cons, if_neg (by simp [hfalse])]
  rw [h1, List.reverse_reverse, hu, dropWhile_dropWhile]

theorem mem_dedupFirstSeen (seen l : List String) (x : String) :
    x ∈ dedupFirstSeen seen l ↔ x ∈ l ∧ x ∉ seen := by
  induction l generalizing seen with
  | nil => simp [dedupFirstSeen]
  | cons p rest ih =>
    by_cases hp : p ∈ seen
    · rw [show dedupFirstSeen seen (p :: rest) = dedupFirstSeen seen rest by
        simp only [dedupFirstSeen]; rw [if_pos hp]]
      rw [ih]
      constructor
      · rintro ⟨hx, hns⟩
        exact ⟨List.mem_cons_of_mem _ hx, hns⟩
      · rintro ⟨hx, hns⟩
        rcases List.mem_cons.mp hx with rfl | hx2
        · exact absurd hp hns
        · exact ⟨hx2, hns⟩
    · rw [show dedupFirstSeen seen (p :: rest) = p :: dedupFirstSeen (p :: seen) rest by
        simp only [dedupFirstSeen]; rw [if_neg hp]]
      constructor
      · intro hx
        rcases List.mem_cons.mp hx with rfl | hx2
        · exact ⟨List.mem_cons_self _ _, hp⟩
        · have h2 := (ih (p :: seen)).mp hx2
          exact ⟨List.mem_cons_of_mem _ h2.1,
            fun hs => h2.2 (List.mem_cons_of_mem _ hs)⟩
      · rintro ⟨hx, hns⟩
        rcases List.mem_cons.mp hx with rfl | hx2
        · exact List.mem_cons_self _ _
        · by_cases hxp : x = p
          · subst hxp
            exact List.mem_cons_self _ _
          · refine List.mem_cons_of_mem _ ((ih (p :: seen)).mpr ⟨hx2, fun hs => ?_⟩)
            rcases List.mem_cons.mp hs with h | h
            · exact hxp h
            · exact hns h

theorem dedupFirstSeen_nodup (seen l : List String) : (dedupFirstSeen seen l).Nodup := by
  induction l generalizing seen with
  | nil => simp [dedupFirstSeen]
  | cons p rest ih =>
    by_cases hp : p ∈ seen
    · rw [show dedupFirstSeen seen (p :: rest) = dedupFirstSeen seen rest by
        simp only [dedupFirstSeen]; rw [if_pos hp]]
      exact ih seen
    · rw [show dedupFirstSeen seen (p :: rest) = p :: dedupFirstSeen (p :: seen) rest by
        simp only [dedupFirstSeen]; rw [if_neg hp]]
      refine List.nodup_cons.mpr ⟨?_, ih (p :: seen)⟩
      intro hmem
      exact ((mem_dedupFirstSeen _ _ _).mp hmem).2 (List.mem_cons_self _ _)

theorem goStrLeChars_total (a : List Char) :
    ∀ b, goStrLeChars a b = true ∨ goStrLeChars b a = true := by
  induction a with
  | nil => intro b; left; rfl
  | cons x xs ih =>
    intro b
    cases b with
    | nil => right; rfl
    | cons y ys =>
      by_cases h1 : x.toNat < y.toNat
      · left
        simp [goStrLeChars, h1]
      · by_cases h2 : y.toNat < x.toNat
        · right
          simp [goStrLeChars, h2]
        · rcases ih ys with h | h
          · left
            simp [goStrLeChars, h1, h2, h]
          · right
            simp [goStrLeChars, h1, h2, h]

theorem goStrLeChars_trans (a : List Char) : ∀ b c, goStrLeChars a b = true →
    goStrLeChars b c = true → goStrLeChars a c = true := by
  induction a with
  | nil => intro b c h1 h2; rfl
  | cons x xs ih =>
    intro b c h1 h2
    cases b with
    | nil => simp [goStrLeChars] at h1
    | cons y ys =>
      cases c with
      | nil => simp [goStrLeChars] at h2
      | cons z zs =>
        simp only [goStrLeChars] at h1 h2 ⊢
        by_cases hxy : x.toNat < y.toNat
        · by_cases hyz : y.toNat < z.toNat
          · rw [if_pos (Nat.lt_trans hxy hyz)]
          · rw [if_neg hyz] at h2
            by_cases hzy : z.toNat < y.toNat
            · rw [if_pos hzy] at h2
              exact absurd h2 (by decide)
            · have heq : y.toNat = z.toNat :=
                Nat.le_antisymm (Nat.not_lt.mp hzy) (Nat.not_lt.mp hyz)
              rw [if_pos (heq ▸ hxy)]
        · rw [if_neg hxy] at h1
          by_cases hyx : y.toNat < x.toNat
          · rw [if_pos hyx] at h1
            exact absurd h1 (by decide)
          · rw [if_neg hyx] at h1
            have heq : x.toNat = y.toNat :=
              Nat.le_antisymm (Nat.not_lt.mp hyx) (Nat.not_lt.mp hxy)
            by_cases hyz : y.toNat < z.toNat
            · rw [if_pos (heq.symm ▸ hyz)]
            · rw [if_neg hyz] at h2
              by_cases hzy : z.toNat < y.toNat
              · rw [if_pos hzy] at h2
                exact absurd h2 (by decide)
              · rw [if_neg hzy] at h2
                have heq2 : y.toNat = z.toNat :=
                  Nat.le_antisymm (Nat.not_lt.mp hzy) (Nat.not_lt.mp hyz)
                rw [if_neg (show ¬x.toNat < z.toNat by
                    rw [heq, heq2]; exact Nat.lt_irrefl _),
                  if_neg (show ¬z.toNat < x.toNat by
                    rw [heq, heq2]; exact Nat.lt_irrefl _)]
                exact ih ys zs h1 h2

theorem sortStrings_sorted (l : List String) :
    (sortStrings l).Sorted fun a b => goStrLe a b = true := by
  haveI : IsTotal String (fun a b => goStrLe a b = true) :=
    ⟨fun a b => goStrLeChars_total a.data b.data⟩
  haveI : IsTrans String (fun a b => goStrLe a b = true) :=
    ⟨fun a b c h1 h2 => goStrLeChars_trans a.data b.data c.data h1 h2⟩
  exact List.sorted_insertionSort _ l

theorem sortStrings_perm (l : List String) : List.Perm (sortStrings l) l :=
  List.perm_insertionSort _ l

/-- The batch package list is sorted, duplicate-free, and contains
exactly the trimmed package names of the batch group. -/
theorem batchPkgsForKind_spec (works : List agentWork) (kind : String) :
    ((batchPkgsForKind works kind).Sorted fun a b => goStrLe a b = true) ∧
    (batchPkgsForKind works kind).Nodup ∧
    (∀ p, p ∈ batchPkgsForKind works kind ↔
      ∃ w ∈ batchWorksForKind works kind, goTrim w.nodePackageName = p) := by
  unfold batchPkgsForKind
  refine ⟨sortStrings_sorted _, ?_, ?_⟩
  · exact (sortStrings_perm _).nodup_iff.mpr (dedupFirstSeen_nodup _ _)
  · intro p
    rw [(sortStrings_perm _).mem_iff, mem_dedupFirstSeen]
    simp

theorem isNodeKind_iff_mem (k : String) : isNodeKind k = true ↔ k ∈ nodeKindsOrder := by
  simp only [isNodeKind, nodeKindsOrder, Bool.or_eq_true, decide_eq_true_eq, List.mem_cons,
    List.not_mem_nil, or_false]
  tauto

/-- For a node kind, `nodeBatchUpdateCommand` is the manager's prefix
followed by the non-blank packages suffixed `@latest`. -/
theorem nodeBatchUpdateCommand_node (kind : String) (pkgs : List String)
    (hk : kind ∈ nodeKindsOrder) :
    nodeBatchUpdateCommand kind pkgs =
      some ((if kind = KindNpm then ["npm", "install", "-g"]
        else if kind = KindPnpm then ["pnpm", "add", "-g"]
        else if kind = KindYarn then ["yarn", "global", "add"]
        else ["bun", "add", "-g"]) ++
        (pkgs.filter fun pkg => decide (goTrim pkg ≠ "")).map fun pkg => pkg ++ "@latest") := by
  rcases (by simpa [nodeKindsOrder] using hk : kind = KindNpm ∨ kind = KindPnpm ∨
      kind = KindYarn ∨ kind = KindBun) with rfl | rfl | rfl | rfl <;> rfl

/-- A singleton list holding the batch task contains one task matching
kind `kind` with a non-blank-package agent exactly when `kfor = kind`
and the batch group is non-empty. -/
theorem countP_batchTask (works : List agentWork) (kfor kind : String) :
    (([batchTask works kfor] : List updateTask).countP fun t =>
        decide (t.kind = kind ∧ ∃ w ∈ t.agents, goTrim w.nodePackageName ≠ "")) =
      if kfor = kind ∧ batchWorksForKind works kfor ≠ [] then 1 else 0 := by
  have hk : (batchTask works kfor).kind = kfor := rfl
  by_cases hc : kfor = kind ∧ batchWorksForKind works kfor ≠ []
  · rw [if_pos hc]
    rcases hc with ⟨rfl, hbne⟩
    have hPt : (decide ((batchTask works kfor).kind = kfor ∧
        ∃ w ∈ (batchTask works kfor).agents, goTrim w.nodePackageName ≠ "")) = true := by
      rw [decide_eq_true_eq]
      refine ⟨rfl, ?_⟩
      rcases List.exists_mem_of_ne_nil _ hbne with ⟨w0, hw0⟩
      refine ⟨{ w0 with updateCmd :=
        nodeBatchUpdateCommand kfor (batchPkgsForKind works kfor) },
        List.mem_map_of_mem _ hw0, ?_⟩
      have h2 : goTrim w0.nodePackageName ≠ "" := by
        simpa using (List.mem_filter.mp hw0).2
      exact h2
    simp only [List.countP_cons, List.countP_nil, Nat.zero_add]
    rw [hPt]
    decide
  · rw [if_neg hc]
    rw [List.countP_eq_zero]
    intro t ht
    rcases List.mem_singleton.mp ht with rfl
    simp only [decide_eq_true_eq]
    rintro ⟨hkind2, hex⟩
    apply hc
    refine ⟨hk ▸ hkind2, ?_⟩
    intro hnil
    rcases hex with ⟨w, hw, -⟩
    have hag : (batchTask works kfor).agents = [] := by
      simp only [batchTask]
      rw [hnil]
      rfl
    rw [hag] at hw
    exact absurd hw (List.not_mem_nil w)

/-- Count of batch-like tasks contributed by one kind's group. -/
theorem countP_buildTasksForKind (works : List agentWork) (kfor kind : String)
    (hk : isNodeKind kind = true) :
    ((buildTasksForKind works kfor).countP fun t =>
        decide (t.kind = kind ∧ ∃ w ∈ t.agents, goTrim w.nodePackageName ≠ "")) =
      if kfor = kind ∧ batchWorksForKind works kfor ≠ [] then 1 else 0 := by
  have hsingles : ((((worksForKind works kfor).filter fun w =>
      decide (goTrim w.nodePackageName = "")).map singletonTask).countP fun t =>
        decide (t.kind = kind ∧ ∃ w ∈ t.agents, goTrim w.nodePackageName ≠ "")) = 0 := by
    rw [List.countP_eq_zero]
    intro t ht
    rcases List.mem_map.mp ht with ⟨w, hwmem, rfl⟩
    have hblank : goTrim w.nodePackageName = "" := by
      simpa using (List.mem_filter.mp hwmem).2
    simp only [decide_eq_true_eq]
    rintro ⟨-, w2, hw2, hne2⟩
    have hw2eq : w2 = { w with updateCmd := w.updateCmdSingle } := by
      simpa [singletonTask] using hw2
    rw [hw2eq] at hne2
    exact hne2 hblank
  unfold buildTasksForKind
  by_cases hb : (batchWorksForKind works kfor).isEmpty = true
  · rw [if_pos hb, hsingles]
    have hbe : batchWorksForKind works kfor = [] := List.isEmpty_iff.mp hb
    rw [if_neg]
    rintro ⟨-, hne2⟩
    exact hne2 hbe
  · rw [if_neg hb]
    rw [List.countP_append, hsingles, Nat.zero_add]
    exact countP_batchTask works kfor kind

/-- C5: for every node-family kind with at least one grouped agent whose
package name is non-blank, `buildTasks` emits exactly one combined task
for that kind; its command is the manager's install/add prefix followed
by every distinct trimmed package name exactly once, in sorted order,
each suffixed "@latest"; its agents are exactly the kind's
non-blank-package works (deduplicated even when two agents share a
package name); and every resolved work with a non-node method or a blank
package name becomes a singleton task running its own command. -/
theorem buildTasks_batching (works : List agentWork) (kind : String)
    (hkind : kind ∈ nodeKindsOrder) (hne : batchWorksForKind works kind ≠ []) :
    (((buildTasks works).countP fun t =>
        decide (t.kind = kind ∧ ∃ w ∈ t.agents, goTrim w.nodePackageName ≠ "")) = 1) ∧
    batchTask works kind ∈ buildTasks works ∧
    (nodeBatchUpdateCommand kind (batchPkgsForKind works kind) =
      some ((if kind = KindNpm then ["npm", "install", "-g"]
          else if kind = KindPnpm then ["pnpm", "add", "-g"]
          else if kind = KindYarn then ["yarn", "global", "add"]
          else ["bun", "add", "-g"]) ++
        (batchPkgsForKind works kind).map fun p => p ++ "@latest")) ∧
    ((batchPkgsForKind works kind).Sorted fun a b => goStrLe a b = true) ∧
    (batchPkgsForKind works kind).Nodup ∧
    (∀ p, p ∈ batchPkgsForKind works kind ↔
      ∃ w ∈ batchWorksForKind works kind, goTrim w.nodePackageName = p) ∧
    (∀ w ∈ works, w.updateCmdSingle ≠ none →
      (isNodeKind w.method = false ∨ goTrim w.nodePackageName = "") →
      singletonTask w ∈ buildTasks works) := by
  have hkn : isNodeKind kind = true := (isNodeKind_iff_mem kind).mpr hkind
  have hnonnode : (((works.filter fun w =>
      decide (w.updateCmdSingle ≠ none ∧ isNodeKind w.method = false)).map
        singletonTask).countP fun t =>
        decide (t.kind = kind ∧ ∃ w ∈ t.agents, goTrim w.nodePackageName ≠ "")) = 0 := by
    rw [List.countP_eq_zero]
    intro t ht
    rcases List.mem_map.mp ht with ⟨w, hwmem, rfl⟩
    have hwn : isNodeKind w.method = false := by
      have h2 := (List.mem_filter.mp hwmem).2
      simp only [decide_eq_true_eq] at h2
      exact h2.2
    simp only [decide_eq_true_eq]
    rintro ⟨hkmatch, -⟩
    have hkm2 : w.method = kind := hkmatch
    rw [hkm2] at hwn
    exact absurd (hkn.symm.trans hwn) (by decide)
  have hcount : ((buildTasks works).countP fun t =>
      decide (t.kind = kind ∧ ∃ w ∈ t.agents, goTrim w.nodePackageName ≠ "")) = 1 := by
    unfold buildTasks
    rw [List.countP_append, hnonnode, Nat.zero_add]
    simp only [nodeKindsOrder, List.flatMap_cons, List.flatMap_nil, List.countP_append,
      List.countP_nil]
    rw [countP_buildTasksForKind works KindNpm kind hkn,
      countP_buildTasksForKind works KindPnpm kind hkn,
      countP_buildTasksForKind works KindYarn kind hkn,
      countP_buildTasksForKind works KindBun kind hkn]
    rcases (by simpa [nodeKindsOrder] using hkind : kind = KindNpm ∨ kind = KindPnpm ∨
        kind = KindYarn ∨ kind = KindBun) with rfl | rfl | rfl | rfl
    · rw [if_pos ⟨rfl, hne⟩, if_neg (fun hc => absurd hc.1 (by decide)),
        if_neg (fun hc => absurd hc.1 (by decide)),
        if_neg (fun hc => absurd hc.1 (by decide))]
    · rw [if_neg (fun hc => absurd hc.1 (by decide)), if_pos ⟨rfl, hne⟩,
        if_neg (fun hc => absurd hc.1 (by decide)),
        if_neg (fun hc => absurd hc.1 (by decide))]
    · rw [if_neg (fun hc => absurd hc.1 (by decide)),
        if_neg (fun hc => absurd hc.1 (by decide)), if_pos ⟨rfl, hne⟩,
        if_neg (fun hc => absurd hc.1 (by decide))]
    · rw [if_neg (fun hc => absurd hc.1 (by decide)),
        if_neg (fun hc => absurd hc.1 (by decide)),
        if_neg (fun hc => absurd hc.1 (by decide)), if_pos ⟨rfl, hne⟩]
  have hnb : ∀ p ∈ batchPkgsForKind works kind, goTrim p ≠ "" := by
    intro p hp
    rcases ((batchPkgsForKind_spec works kind).2.2 p).mp hp with ⟨w, hw, rfl⟩
    have h2 : goTrim w.nodePackageName ≠ "" := by
      simpa using (List.mem_filter.mp hw).2
    rw [goTrim_idem]
    exact h2
  have hfilter : ((batchPkgsForKind works kind).filter fun pkg =>
      decide (goTrim pkg ≠ "")) = batchPkgsForKind works kind :=
    List.filter_eq_self.mpr fun p hp => by simpa using hnb p hp
  refine ⟨hcount, ?_, ?_, (batchPkgsForKind_spec works kind).1,
    (batchPkgsForKind_spec works kind).2.1, (batchPkgsForKind_spec works kind).2.2, ?_⟩
  · have hbmem : batchTask works kind ∈ buildTasksForKind works kind := by
      unfold buildTasksForKind
      rw [if_neg (by simpa [List.isEmpty_iff] using hne)]
      exact List.mem_append_right _ (List.mem_singleton.mpr rfl)
    exact List.mem_append_right _ (List.mem_flatMap.mpr ⟨kind, hkind, hbmem⟩)
  · rw [nodeBatchUpdateCommand_node kind _ hkind, hfilter]
  · intro w hw hcmd hside
    by_cases hnode : isNodeKind w.method = true
    · have hblank : goTrim w.nodePackageName = "" := by
        rcases hside with hnn | hb
        · exact absurd (hnode.symm.trans hnn) (by decide)
        · exact hb
      apply List.mem_append_right
      refine List.mem_flatMap.mpr ⟨w.method, (isNodeKind_iff_mem _).mp hnode, ?_⟩
      have hmem2 : singletonTask w ∈ ((worksForKind works w.method).filter fun w2 =>
          decide (goTrim w2.nodePackageName = "")).map singletonTask :=
        List.mem_map_of_mem _ (List.mem_filter.mpr
          ⟨List.mem_filter.mpr ⟨hw, by simp [hcmd]⟩, by simp [hblank]⟩)
      unfold buildTasksForKind
      by_cases hbe : (batchWorksForKind works w.method).isEmpty = true
      · rw [if_pos hbe]
        exact hmem2
      · rw [if_neg hbe]
        exact List.mem_append_left _ hmem2
    · apply List.mem_append_left
      exact List.mem_map_of_mem _ (List.mem_filter.mpr ⟨hw, by
        simp only [decide_eq_true_eq]
        exact ⟨hcmd, by simpa using hnode⟩⟩)

/-- Witness: three npm works with packages b, a, a batch into exactly
one npm task listing a and b once each, sorted. -/
theorem buildTasks_batching_witness :
    ((buildTasks worksC5).countP fun t =>
      decide (t.kind = KindNpm ∧ ∃ w ∈ t.agents, goTrim w.nodePackageName ≠ "")) = 1 ∧
    nodeBatchUpdateCommand KindNpm (batchPkgsForKind worksC5 KindNpm) =
      some ["npm", "install", "-g", "a@latest", "b@latest"] :=
  ⟨(buildTasks_batching worksC5 KindNpm (by decide) (by decide)).1,
    ((buildTasks_batching worksC5 KindNpm (by decide) (by decide)).2.2.1).trans (by decide)⟩

/-! ## Theorems: claim C3 -/

theorem bestNodeMatchFold_eq (dirLen : String → Int) (ms : List String) :
    bestNodeMatchFold dirLen ms = ms.foldl (bnmStep dirLen) ("", -1, false) := rfl

theorem nodeManagerForBinary_eq (e : Env) (name : String) :
    e.nodeManagerForBinary name =
      if e.binaryPath name = "" then ""
      else if (nodeBinDirMatches e name).length = 1 then
        (nodeBinDirMatches e name).headD ""
      else if (nodeBinDirMatches e name).length > 1 then
        if !(bestNodeMatchFold (fun kind => (goLenBytes (e.nodeBinDir kind) : Int))
            (nodeBinDirMatches e name)).2.2 then
          (bestNodeMatchFold (fun kind => (goLenBytes (e.nodeBinDir kind) : Int))
            (nodeBinDirMatches e name)).1
        else ""
      else "" := rfl

theorem nodeManagerForPackage_eq (e : Env) (pkg : String) :
    e.nodeManagerForPackage pkg =
      if pkg = "" then ""
      else if (nodePkgMatches e pkg).length = 1 then (nodePkgMatches e pkg).headD ""
      else "" := rfl

theorem bnmFold_mono (dirLen : String → Int) :
    ∀ (l : List String) (st : String × Int × Bool),
      st.2.1 ≤ (l.foldl (bnmStep dirLen) st).2.1 := by
  intro l
  induction l with
  | nil => intro st; exact le_refl _
  | cons a l ih =>
    intro st
    rw [List.foldl_cons]
    refine le_trans ?_ (ih (bnmStep dirLen st a))
    unfold bnmStep
    by_cases h1 : dirLen a > st.2.1
    · rw [if_pos h1]
      exact le_of_lt h1
    · rw [if_neg h1]
      by_cases h2 : dirLen a = st.2.1
      · rw [if_pos h2]
      · rw [if_neg h2]

theorem bnmFold_ub (dirLen : String → Int) :
    ∀ (l : List String) (st : String × Int × Bool) (M : Int), st.2.1 ≤ M →
      (∀ j ∈ l, dirLen j ≤ M) → (l.foldl (bnmStep dirLen) st).2.1 ≤ M := by
  intro l
  induction l with
  | nil => intro st M h _; exact h
  | cons a l ih =>
    intro st M h hall
    rw [List.foldl_cons]
    refine ih _ M ?_ fun j hj => hall j (List.mem_cons_of_mem _ hj)
    unfold bnmStep
    by_cases h1 : dirLen a > st.2.1
    · rw [if_pos h1]
      exact hall a (List.mem_cons_self _ _)
    · rw [if_neg h1]
      by_cases h2 : dirLen a = st.2.1
      · rw [if_pos h2]
        exact h
      · rw [if_neg h2]
        exact h

theorem bnmFold_const_lt (dirLen : String → Int) :
    ∀ (l : List String) (st : String × Int × Bool),
      (∀ j ∈ l, dirLen j < st.2.1) → l.foldl (bnmStep dirLen) st = st := by
  intro l
  induction l with
  | nil => intro st _; rfl
  | cons a l ih =>
    intro st hall
    rw [List.foldl_cons]
    have hstep : bnmStep dirLen st a = st := by
      unfold bnmStep
      rw [if_neg (not_lt.mpr (le_of_lt (hall a (List.mem_cons_self _ _)))),
        if_neg (ne_of_lt (hall a (List.mem_cons_self _ _)))]
    rw [hstep]
    exact ih st fun j hj => hall j (List.mem_cons_of_mem _ hj)

theorem bnmFold_tie_stable (dirLen : String → Int) :
    ∀ (l : List String) (st : String × Int × Bool),
      (∀ j ∈ l, dirLen j ≤ st.2.1) → st.2.2 = true →
      (l.foldl (bnmStep dirLen) st).2.2 = true ∧
        (l.foldl (bnmStep dirLen) st).2.1 = st.2.1 := by
  intro l
  induction l with
  | nil => intro st _ ht; exact ⟨ht, rfl⟩
  | cons a l ih =>
    intro st hall ht
    rw [List.foldl_cons]
    have hle : dirLen a ≤ st.2.1 := hall a (List.mem_cons_self _ _)
    by_cases h2 : dirLen a = st.2.1
    · have hstep : bnmStep dirLen st a = (st.1, st.2.1, true) := by
        unfold bnmStep
        rw [if_neg (not_lt.mpr (le_of_eq h2)), if_pos h2]
      rw [hstep]
      exact ih (st.1, st.2.1, true)
        (fun j hj => hall j (List.mem_cons_of_mem _ hj)) rfl
    · have hstep : bnmStep dirLen st a = st := by
        unfold bnmStep
        rw [if_neg (not_lt.mpr hle), if_neg h2]
      rw [hstep]
      exact ih st (fun j hj => hall j (List.mem_cons_of_mem _ hj)) ht

/-- On multiple matches, a unique strict maximum of the bin-dir length
wins the tie-break loop with the tie flag clear. -/
theorem bestNodeMatchFold_strict_max (dirLen : String → Int) (l₁ l₂ : List String)
    (k : String) (h0 : 0 ≤ dirLen k)
    (h1 : ∀ j ∈ l₁, dirLen j < dirLen k) (h2 : ∀ j ∈ l₂, dirLen j < dirLen k) :
    bestNodeMatchFold dirLen (l₁ ++ k :: l₂) = (k, dirLen k, false) := by
  show (l₁ ++ k :: l₂).foldl (bnmStep dirLen) ("", -1, false) = (k, dirLen k, false)
  rw [List.foldl_append, List.foldl_cons]
  set st₁ := l₁.foldl (bnmStep dirLen) ("", -1, false) with hst₁
  have hub : st₁.2.1 < dirLen k := by
    have := bnmFold_ub dirLen l₁ ("", -1, false) (dirLen k - 1)
      (show (-1 : Int) ≤ dirLen k - 1 by omega)
      (fun j hj => by have := h1 j hj; omega)
    rw [← hst₁] at this
    omega
  have hstep : bnmStep dirLen st₁ k = (k, dirLen k, false) := by
    unfold bnmStep
    rw [if_pos hub]
  rw [hstep]
  exact bnmFold_const_lt dirLen l₂ (k, dirLen k, false) fun j hj => h2 j hj

theorem bestNodeMatchFold_tie_aux (dirLen : String → Int) (l₁ l₂ l₃ : List String)
    (a b : String) (h0 : (-1 : Int) ≤ dirLen a) (hab : dirLen b = dirLen a)
    (hu1 : ∀ j ∈ l₁, dirLen j ≤ dirLen a)
    (hu2 : ∀ j ∈ l₂, dirLen j ≤ dirLen a)
    (hu3 : ∀ j ∈ l₃, dirLen j ≤ dirLen a) :
    (bestNodeMatchFold dirLen ((l₁ ++ a :: l₂) ++ b :: l₃)).2.2 = true := by
  show (((l₁ ++ a :: l₂) ++ b :: l₃).foldl
    (bnmStep dirLen) ("", -1, false)).2.2 = true
  rw [List.foldl_append, List.foldl_append, List.foldl_cons, List.foldl_cons]
  set st₁ := l₁.foldl (bnmStep dirLen) ("", -1, false) with hst₁
  have hub₁ : st₁.2.1 ≤ dirLen a := bnmFold_ub dirLen l₁ ("", -1, false) (dirLen a) h0 hu1
  have hm2 : (bnmStep dirLen st₁ a).2.1 = dirLen a := by
    unfold bnmStep
    by_cases h : dirLen a > st₁.2.1
    · rw [if_pos h]
    · rw [if_neg h]
      have heq : dirLen a = st₁.2.1 := le_antisymm (not_lt.mp h) hub₁
      rw [if_pos heq]
      exact heq.symm
  set st₃ := l₂.foldl (bnmStep dirLen) (bnmStep dirLen st₁ a) with hst₃
  have hm3 : st₃.2.1 = dirLen a :=
    le_antisymm (bnmFold_ub dirLen l₂ _ (dirLen a) (le_of_eq hm2) hu2)
      (hm2 ▸ bnmFold_mono dirLen l₂ (bnmStep dirLen st₁ a))
  have hstep4 : bnmStep dirLen st₃ b = (st₃.1, st₃.2.1, true) := by
    unfold bnmStep
    rw [if_neg (show ¬dirLen b > st₃.2.1 by rw [hab, ← hm3]; exact lt_irrefl _),
      if_pos (show dirLen b = st₃.2.1 by rw [hab]; exact hm3.symm)]
  rw [hstep4]
  exact (bnmFold_tie_stable dirLen l₃ (st₃.1, st₃.2.1, true)
    (fun j hj => hm3.symm ▸ hu3 j hj) rfl).1

/-- An exact length tie at the maximum sets the tie flag. -/
theorem bestNodeMatchFold_tie (dirLen : String → Int) (ms : List String)
    (k₁ k₂ : String) (h0 : (-1 : Int) ≤ dirLen k₁) (h₁ : k₁ ∈ ms) (h₂ : k₂ ∈ ms)
    (hne : k₁ ≠ k₂) (heq : dirLen k₂ = dirLen k₁)
    (hub : ∀ j ∈ ms, dirLen j ≤ dirLen k₁) :
    (bestNodeMatchFold dirLen ms).2.2 = true := by
  rcases List.append_of_mem h₁ with ⟨s, t, rfl⟩
  rcases List.mem_append.mp h₂ with hk | hk
  · rcases List.append_of_mem hk with ⟨p, q, rfl⟩
    refine bestNodeMatchFold_tie_aux dirLen p q t k₂ k₁ (heq ▸ h0) heq.symm
      (fun j hj => heq ▸ hub j (List.mem_append_left _ (List.mem_append_left _ hj)))
      (fun j hj => heq ▸ hub j
        (List.mem_append_left _ (List.mem_append_right _ (List.mem_cons_of_mem _ hj))))
      (fun j hj => heq ▸ hub j (List.mem_append_right _ (List.mem_cons_of_mem _ hj)))
  · rcases List.mem_cons.mp hk with h | hk2
    · exact absurd h.symm hne
    · rcases List.append_of_mem hk2 with ⟨p, q, rfl⟩
      have hshape : s ++ k₁ :: (p ++ k₂ :: q) = (s ++ k₁ :: p) ++ k₂ :: q := by
        simp
      rw [hshape]
      exact bestNodeMatchFold_tie_aux dirLen s p q k₁ k₂ h0 heq
        (fun j hj => hub j (List.mem_append_left _ hj))
        (fun j hj => hub j (List.mem_append_right _
          (List.mem_cons_of_mem _ (List.mem_append_left _ hj))))
        (fun j hj => hub j (List.mem_append_right _ (List.mem_cons_of_mem _
          (List.mem_append_right _ (List.mem_cons_of_mem _ hj)))))

theorem isNodeKind_ne_native (k : String) (h : isNodeKind k = true) :
    k ≠ KindNative := by
  rcases (by simpa [nodeKindsOrder] using (isNodeKind_iff_mem k).mp h :
      k = KindNpm ∨ k = KindPnpm ∨ k = KindYarn ∨ k = KindBun) with
    rfl | rfl | rfl | rfl <;> decide

/-- C3 (corrected): for an agent with a declared binary that is found on
the search path, (1) a single bin-directory match wins; (2) on multiple
matches the manager with the strictly longest bin-directory path wins;
(3) an exact length tie at the maximum yields no manager; (4) package
evidence is consulted exactly when the bin-directory step selects no
manager — which includes the ambiguous tie case, not only the no-match
case the original claim describes; (5) package evidence selects a
manager only when exactly one present manager claims the package; and
(6) with both kinds of evidence absent, a per-strategy
bin-directory-contains-file check decides. -/
theorem resolveUpdate_node_evidence_order (e : Env) (agent : Agent)
    (hbin : agent.Binary ≠ "") (hpath : e.binaryPath agent.Binary ≠ "") :
    (∀ k, nodeBinDirMatches e agent.Binary = [k] →
      e.nodeManagerForBinary agent.Binary = k) ∧
    (∀ l₁ k l₂, nodeBinDirMatches e agent.Binary = l₁ ++ k :: l₂ → l₁ ++ l₂ ≠ [] →
      (∀ j ∈ l₁ ++ l₂, goLenBytes (e.nodeBinDir j) < goLenBytes (e.nodeBinDir k)) →
      e.nodeManagerForBinary agent.Binary = k) ∧
    (∀ k₁ k₂, k₁ ∈ nodeBinDirMatches e agent.Binary →
      k₂ ∈ nodeBinDirMatches e agent.Binary → k₁ ≠ k₂ →
      goLenBytes (e.nodeBinDir k₂) = goLenBytes (e.nodeBinDir k₁) →
      (∀ j ∈ nodeBinDirMatches e agent.Binary,
        goLenBytes (e.nodeBinDir j) ≤ goLenBytes (e.nodeBinDir k₁)) →
      e.nodeManagerForBinary agent.Binary = "") ∧
    (resolveUpdate agent e =
      resolveLoop agent e (e.nodeManagerForBinary agent.Binary)
        (if e.nodeManagerForBinary agent.Binary = "" ∧
            nodePackageName agent.Strategies ≠ "" then
          e.nodeManagerForPackage (nodePackageName agent.Strategies)
        else "") agent.Strategies false) ∧
    (∀ pkg k, pkg ≠ "" → nodePkgMatches e pkg = [k] →
      e.nodeManagerForPackage pkg = k) ∧
    (∀ pkg, 2 ≤ (nodePkgMatches e pkg).length → e.nodeManagerForPackage pkg = "") ∧
    (∀ strat rest cm, isNodeKind strat.Kind = true →
      e.hasNodeManager strat.Kind = true → strat.Package ≠ "" →
      resolveLoop agent e "" "" (strat :: rest) cm =
        if e.nodeBinHasBinary strat.Kind agent.Binary then
          ⟨nodeUpdateCommand strat, "", strat.Kind,
            strat.Kind ++ " global bin has " ++ agent.Binary ++
              "; matched by bin dir; updating via " ++ strat.Kind⟩
        else resolveLoop agent e "" "" rest cm) := by
  refine ⟨?_, ?_, ?_, ?_, ?_, ?_, ?_⟩
  · intro k hk
    rw [nodeManagerForBinary_eq, if_neg hpath, hk]
    simp
  · intro l₁ k l₂ hdec hne hlt
    have hlen : 1 < (l₁ ++ k :: l₂).length := by
      have h1 : 0 < (l₁ ++ l₂).length := List.length_pos.mpr hne
      rw [List.length_append] at h1
      rw [List.length_append, List.length_cons]
      omega
    rw [nodeManagerForBinary_eq, if_neg hpath, hdec,
      if_neg (show ¬(l₁ ++ k :: l₂).length = 1 by omega), if_pos hlen,
      bestNodeMatchFold_strict_max _ l₁ l₂ k (Int.natCast_nonneg _)
        (fun j hj => by exact_mod_cast hlt j (List.mem_append_left _ hj))
        (fun j hj => by exact_mod_cast hlt j (List.mem_append_right _ hj))]
    rfl
  · intro k₁ k₂ hm₁ hm₂ hne heq hub
    have h2le : 1 < (nodeBinDirMatches e agent.Binary).length := by
      rcases List.append_of_mem hm₁ with ⟨s, t, hms⟩
      rcases List.mem_append.mp (hms ▸ hm₂) with hk | hk
      · have hs : s ≠ [] := List.ne_nil_of_mem hk
        rw [hms, List.length_append, List.length_cons]
        have := List.length_pos.mpr hs
        omega
      · rcases List.mem_cons.mp hk with h | hk2
        · exact absurd h.symm hne
        · have ht : t ≠ [] := List.ne_nil_of_mem hk2
          rw [hms, List.length_append, List.length_cons]
          have := List.length_pos.mpr ht
          omega
    have htie : (bestNodeMatchFold (fun kind => (goLenBytes (e.nodeBinDir kind) : Int))
        (nodeBinDirMatches e agent.Binary)).2.2 = true :=
      bestNodeMatchFold_tie _ _ k₁ k₂
        (le_trans (by norm_num) (Int.natCast_nonneg _)) hm₁ hm₂ hne
        (by exact_mod_cast heq) (fun j hj => by exact_mod_cast hub j hj)
    rw [nodeManagerForBinary_eq, if_neg hpath,
      if_neg (show ¬(nodeBinDirMatches e agent.Binary).length = 1 by omega),
      if_pos h2le, htie]
    rfl
  · simp only [resolveUpdate]
    rw [if_pos hbin]
  · intro pkg k hpkg hmk
    rw [nodeManagerForPackage_eq, if_neg hpkg, hmk]
    simp
  · intro pkg hlen
    rw [nodeManagerForPackage_eq]
    by_cases hp : pkg = ""
    · rw [if_pos hp]
    · rw [if_neg hp, if_neg (show ¬(nodePkgMatches e pkg).length = 1 by omega)]
  · intro strat rest cm hnode hmgr hpkg
    have hnn : ¬strat.Kind = KindNative := isNodeKind_ne_native strat.Kind hnode
    simp only [resolveLoop]
    rw [if_neg hnn, if_pos hnode,
      if_neg (show ¬(!e.hasNodeManager strat.Kind) = true by rw [hmgr]; decide),
      if_neg (show ¬(agent.Binary = "" ∨ strat.Package = "") from by
        rintro (h | h)
        · exact hbin h
        · exact hpkg h),
      if_neg (show ¬(("" : String) ≠ "") from fun h => h rfl),
      if_neg (show ¬(("" : String) ≠ "") from fun h => h rfl)]
    by_cases hbb : e.nodeBinHasBinary strat.Kind agent.Binary = true
    · rw [if_neg (show ¬(!e.nodeBinHasBinary strat.Kind agent.Binary) = true by
        rw [hbb]; decide), if_pos hbb]
    · have hfb : e.nodeBinHasBinary strat.Kind agent.Binary = false :=
        Bool.eq_false_iff.mpr hbb
      rw [if_pos (show (!e.nodeBinHasBinary strat.Kind agent.Binary) = true by
        rw [hfb]; decide), if_neg hbb]

/-- C3 counterexample: npm and pnpm are both present and share the
global bin directory holding the agent's binary, so TWO managers match
by bin directory (an exact tie); yet resolution still consults and uses
package-list evidence, succeeding via npm "matched by package list" —
the original claim allows package evidence only when NO manager matches
by bin directory. -/
theorem resolveUpdate_tie_package_counterexample :
    1 < (nodeBinDirMatches envC3 agentC3.Binary).length ∧
    envC3.nodeManagerForBinary agentC3.Binary = "" ∧
    (resolveUpdate agentC3 envC3).method = KindNpm ∧
    (resolveUpdate agentC3 envC3).detail =
      "npm global package p installed; matched by package list; updating via npm" := by
  decide

/-- Witness: the amended theorem applied at the tie environment; the
tie conjunct yields no manager for the binary-directory step. -/
theorem resolveUpdate_node_evidence_order_witness :
    envC3.nodeManagerForBinary agentC3.Binary = "" :=
  (resolveUpdate_node_evidence_order envC3 agentC3 (by decide) (by decide)).2.2.1
    KindNpm KindPnpm (by decide) (by decide) (by decide) (by decide) (by decide)

/-! ## Theorems: claim C4 -/

theorem isNodeKind_ne_vscode (k : String) (h : isNodeKind k = true) :
    k ≠ KindVSCode := by
  rcases (by simpa [nodeKindsOrder] using (isNodeKind_iff_mem k).mp h :
      k = KindNpm ∨ k = KindPnpm ∨ k = KindYarn ∨ k = KindBun) with
    rfl | rfl | rfl | rfl <;> decide

/-- When the strategy loop falls through (result reason non-empty), the
result is determined by whether some VS Code strategy was blocked by a
missing editor CLI, else by the binary's presence. -/
theorem resolveLoop_fallthrough (agent : Agent) (e : Env) (nm pm : String) :
    ∀ (strats : List UpdateStrategy) (cm : Bool),
      (resolveLoop agent e nm pm strats cm).reason ≠ "" →
      resolveLoop agent e nm pm strats cm =
        if (cm || (decide (e.codeCmd = "") &&
            strats.any fun s => decide (s.Kind = KindVSCode))) = true then
          ⟨none, reasonMissingCode, "",
            "VS Code CLI not found (code/codium/code-insiders)"⟩
        else if agent.Binary ≠ "" ∧ e.hasBinary agent.Binary = true then
          ⟨none, reasonManualInstall, "",
            "binary found but no supported install method detected"⟩
        else ⟨none, reasonMissing, "",
          "no supported binary or install method detected"⟩ := by
  intro strats
  induction strats with
  | nil =>
    intro cm h
    simp only [resolveLoop, List.any_nil, Bool.and_false, Bool.or_false]
  | cons strat rest ih =>
    intro cm h
    have hany : strat.Kind ≠ KindVSCode →
        ((strat :: rest).any fun s => decide (s.Kind = KindVSCode)) =
          rest.any fun s => decide (s.Kind = KindVSCode) := by
      intro hne
      rw [List.any_cons, decide_eq_false hne]
      simp
    by_cases h₁ : strat.Kind = KindNative
    · have hne : strat.Kind ≠ KindVSCode := by
        intro hv
        rw [hv] at h₁
        exact absurd h₁ (by decide)
      by_cases h₂ : agent.Binary ≠ "" ∧ (!e.hasBinary agent.Binary) = true
      · have hunf : resolveLoop agent e nm pm (strat :: rest) cm =
            resolveLoop agent e nm pm rest cm := by
          simp only [resolveLoop]
          rw [if_pos h₁, if_pos h₂]
        rw [hunf, ih cm (hunf ▸ h), hany hne]
      · exfalso
        apply h
        simp only [resolveLoop]
        rw [if_pos h₁, if_neg h₂]
    · by_cases h₃ : isNodeKind strat.Kind = true
      · have hne : strat.Kind ≠ KindVSCode := isNodeKind_ne_vscode strat.Kind h₃
        by_cases h₄ : (!e.hasNodeManager strat.Kind) = true
        · have hunf : resolveLoop agent e nm pm (strat :: rest) cm =
              resolveLoop agent e nm pm rest cm := by
            simp only [resolveLoop]
            rw [if_neg h₁, if_pos h₃, if_pos h₄]
          rw [hunf, ih cm (hunf ▸ h), hany hne]
        · by_cases h₅ : agent.Binary = "" ∨ strat.Package = ""
          · have hunf : resolveLoop agent e nm pm (strat :: rest) cm =
                resolveLoop agent e nm pm rest cm := by
              simp only [resolveLoop]
              rw [if_neg h₁, if_pos h₃, if_neg h₄, if_pos h₅]
            rw [hunf, ih cm (hunf ▸ h), hany hne]
          · by_cases h₆ : nm ≠ ""
            · by_cases h₇ : nm ≠ strat.Kind
              · have hunf : resolveLoop agent e nm pm (strat :: rest) cm =
                    resolveLoop agent e nm pm rest cm := by
                  simp only [resolveLoop]
                  rw [if_neg h₁, if_pos h₃, if_neg h₄, if_neg h₅, if_pos h₆, if_pos h₇]
                rw [hunf, ih cm (hunf ▸ h), hany hne]
              · exfalso
                apply h
                simp only [resolveLoop]
                rw [if_neg h₁, if_pos h₃, if_neg h₄, if_neg h₅, if_pos h₆, if_neg h₇]
            · by_cases h₈ : pm ≠ ""
              · by_cases h₉ : pm ≠ strat.Kind
                · have hunf : resolveLoop agent e nm pm (strat :: rest) cm =
                      resolveLoop agent e nm pm rest cm := by
                    simp only [resolveLoop]
                    rw [if_neg h₁, if_pos h₃, if_neg h₄, if_neg h₅, if_neg h₆,
                      if_pos h₈, if_pos h₉]
                  rw [hunf, ih cm (hunf ▸ h), hany hne]
                · exfalso
                  apply h
                  simp only [resolveLoop]
                  rw [if_neg h₁, if_pos h₃, if_neg h₄, if_neg h₅, if_neg h₆,
                    if_pos h₈, if_neg h₉]
              · by_cases h₁₀ : (!e.nodeBinHasBinary strat.Kind agent.Binary) = true
                · have hunf : resolveLoop agent e nm pm (strat :: rest) cm =
                      resolveLoop agent e nm pm rest cm := by
                    simp only [resolveLoop]
                    rw [if_neg h₁, if_pos h₃, if_neg h₄, if_neg h₅, if_neg h₆,
                      if_neg h₈, if_pos h₁₀]
                  rw [hunf, ih cm (hunf ▸ h), hany hne]
                · exfalso
                  apply h
                  simp only [resolveLoop]
                  rw [if_neg h₁, if_pos h₃, if_neg h₄, if_neg h₅, if_neg h₆,
                    if_neg h₈, if_neg h₁₀]
      · by_cases hb : strat.Kind = KindBrew
        · have hne : strat.Kind ≠ KindVSCode := by
            intro hv
            rw [hv] at hb
            exact absurd hb (by decide)
          by_cases hb1 : (!e.hasBrew) = true
          · have hunf : resolveLoop agent e nm pm (strat :: rest) cm =
                resolveLoop agent e nm pm rest cm := by
              simp only [resolveLoop]
              rw [if_neg h₁, if_neg h₃, if_pos hb, if_pos hb1]
            rw [hunf, ih cm (hunf ▸ h), hany hne]
          · by_cases hb2 : e.brewHas strat.Package = true
            · exfalso
              apply h
              simp only [resolveLoop]
              rw [if_neg h₁, if_neg h₃, if_pos hb, if_neg hb1, if_pos hb2]
            · have hunf : resolveLoop agent e nm pm (strat :: rest) cm =
                  resolveLoop agent e nm pm rest cm := by
                simp only [resolveLoop]
                rw [if_neg h₁, if_neg h₃, if_pos hb, if_neg hb1, if_neg hb2]
              rw [hunf, ih cm (hunf ▸ h), hany hne]
        · by_cases hp : strat.Kind = KindPip
          · have hne : strat.Kind ≠ KindVSCode := by
              intro hv
              rw [hv] at hp
              exact absurd hp (by decide)
            by_cases hp1 : (!e.hasPython) = true
            · have hunf : resolveLoop agent e nm pm (strat :: rest) cm =
                  resolveLoop agent e nm pm rest cm := by
                simp only [resolveLoop]
                rw [if_neg h₁, if_neg h₃, if_neg hb, if_pos hp, if_pos hp1]
              rw [hunf, ih cm (hunf ▸ h), hany hne]
            · by_cases hp2 : e.pipHas strat.Package = true
              · exfalso
                apply h
                simp only [resolveLoop]
                rw [if_neg h₁, if_neg h₃, if_neg hb, if_pos hp, if_neg hp1, if_pos hp2]
              · have hunf : resolveLoop agent e nm pm (strat :: rest) cm =
                    resolveLoop agent e nm pm rest cm := by
                  simp only [resolveLoop]
                  rw [if_neg h₁, if_neg h₃, if_neg hb, if_pos hp, if_neg hp1,
                    if_neg hp2]
                rw [hunf, ih cm (hunf ▸ h), hany hne]
          · by_cases hu : strat.Kind = KindUv
            · have hne : strat.Kind ≠ KindVSCode := by
                intro hv
                rw [hv] at hu
                exact absurd hu (by decide)
              by_cases hu1 : (!e.hasUv) = true
              · have hunf : resolveLoop agent e nm pm (strat :: rest) cm =
                    resolveLoop agent e nm pm rest cm := by
                  simp only [resolveLoop]
                  rw [if_neg h₁, if_neg h₃, if_neg hb, if_neg hp, if_pos hu, if_pos hu1]
                rw [hunf, ih cm (hunf ▸ h), hany hne]
              · by_cases hu2 : e.uvHas strat.Package = true
                · exfalso
                  apply h
                  simp only [resolveLoop]
                  rw [if_neg h₁, if_neg h₃, if_neg hb, if_neg hp, if_pos hu,
                    if_neg hu1, if_pos hu2]
                · have hunf : resolveLoop agent e nm pm (strat :: rest) cm =
                      resolveLoop agent e nm pm rest cm := by
                    simp only [resolveLoop]
                    rw [if_neg h₁, if_neg h₃, if_neg hb, if_neg hp, if_pos hu,
                      if_neg hu1, if_neg hu2]
                  rw [hunf, ih cm (hunf ▸ h), hany hne]
            · by_cases hv : strat.Kind = KindVSCode
              · by_cases hv1 : e.codeCmd = ""
                · have hunf : resolveLoop agent e nm pm (strat :: rest) cm =
                      resolveLoop agent e nm pm rest true := by
                    simp only [resolveLoop]
                    rw [if_neg h₁, if_neg h₃, if_neg hb, if_neg hp, if_neg hu,
                      if_pos hv, if_pos hv1]
                  rw [hunf, ih true (hunf ▸ h)]
                  simp [hv1, hv, List.any_cons]
                · by_cases hv2 : e.vscodeHas strat.ExtensionID = true
                  · exfalso
                    apply h
                    simp only [resolveLoop]
                    rw [if_neg h₁, if_neg h₃, if_neg hb, if_neg hp, if_neg hu,
                      if_pos hv, if_neg hv1, if_pos hv2]
                  · have hunf : resolveLoop agent e nm pm (strat :: rest) cm =
                        resolveLoop agent e nm pm rest cm := by
                      simp only [resolveLoop]
                      rw [if_neg h₁, if_neg h₃, if_neg hb, if_neg hp, if_neg hu,
                        if_pos hv, if_neg hv1, if_neg hv2]
                    rw [hunf, ih cm (hunf ▸ h)]
                    simp [decide_eq_false hv1]
              · have hunf : resolveLoop agent e nm pm (strat :: rest) cm =
                    resolveLoop agent e nm pm rest cm := by
                  simp only [resolveLoop]
                  rw [if_neg h₁, if_neg h₃, if_neg hb, if_neg hp, if_neg hu, if_neg hv]
                rw [hunf, ih cm (hunf ▸ h), hany hv]

/-- Every agent listed inside any built task carries the per-agent
update command that resolution produced; skipped agents (no command)
never appear in a task. -/
theorem buildTasks_agents_have_cmd (works : List agentWork) (t : updateTask)
    (ht : t ∈ buildTasks works) : ∀ w ∈ t.agents, w.updateCmdSingle ≠ none := by
  intro w hw
  have hsingle : ∀ kind, w ∈ t.agents →
      t ∈ ((worksForKind works kind).filter fun w2 =>
        decide (goTrim w2.nodePackageName = "")).map singletonTask →
      w.updateCmdSingle ≠ none := by
    intro kind hw2 ht2
    rcases List.mem_map.mp ht2 with ⟨w0, hw0, rfl⟩
    have hwc : w = { w0 with updateCmd := w0.updateCmdSingle } := by
      simpa [singletonTask] using hw2
    have h2 := (List.mem_filter.mp (List.mem_filter.mp hw0).1).2
    simp only [decide_eq_true_eq] at h2
    rw [hwc]
    exact h2.1
  unfold buildTasks at ht
  rcases List.mem_append.mp ht with h | h
  · rcases List.mem_map.mp h with ⟨w0, hw0, rfl⟩
    have hwc : w = { w0 with updateCmd := w0.updateCmdSingle } := by
      simpa [singletonTask] using hw
    have h2 := (List.mem_filter.mp hw0).2
    simp only [decide_eq_true_eq] at h2
    rw [hwc]
    exact h2.1
  · rcases List.mem_flatMap.mp h with ⟨kind, hk, ht2⟩
    simp only [buildTasksForKind] at ht2
    by_cases hbe : (batchWorksForKind works kind).isEmpty = true
    · rw [if_pos hbe] at ht2
      exact hsingle kind hw ht2
    · rw [if_neg hbe] at ht2
      rcases List.mem_append.mp ht2 with h3 | h3
      · exact hsingle kind hw h3
      · rcases List.mem_singleton.mp h3 with rfl
        rcases List.mem_map.mp hw with ⟨w0, hw0, rfl⟩
        have h2 := (List.mem_filter.mp (List.mem_filter.mp hw0).1).2
        simp only [decide_eq_true_eq] at h2
        exact h2.1

/-- C4 (corrected): when no strategy is usable (skip result), the skip
reason comes from the closed set: "missing vscode" whenever SOME VS Code
strategy was blocked by a missing editor CLI — even if other strategies
were blocked for other reasons, contrary to the original claim's "only
blocking reason seen"; otherwise "manual install" when the binary is on
the search path; otherwise "missing".  The skip result carries no update
command, the built work records no command, and built tasks only ever
contain works that do carry a command. -/
theorem resolveUpdate_skip_reasons (agent : Agent) (e : Env)
    (h : (resolveUpdate agent e).reason ≠ "") :
    (resolveUpdate agent e =
      if (decide (e.codeCmd = "") &&
          agent.Strategies.any fun s => decide (s.Kind = KindVSCode)) = true then
        ⟨none, reasonMissingCode, "",
          "VS Code CLI not found (code/codium/code-insiders)"⟩
      else if agent.Binary ≠ "" ∧ e.hasBinary agent.Binary = true then
        ⟨none, reasonManualInstall, "",
          "binary found but no supported install method detected"⟩
      else ⟨none, reasonMissing, "",
        "no supported binary or install method detected"⟩) ∧
    (resolveUpdate agent e).cmd = none ∧
    ((resolveUpdate agent e).reason = reasonMissingCode ∨
      (resolveUpdate agent e).reason = reasonManualInstall ∨
      (resolveUpdate agent e).reason = reasonMissing) ∧
    (∀ i, (buildWork e i agent).updateCmdSingle = none) ∧
    (∀ works t, t ∈ buildTasks works → ∀ w ∈ t.agents,
      w.updateCmdSingle ≠ none) := by
  have heq' : resolveUpdate agent e =
      if (decide (e.codeCmd = "") &&
          agent.Strategies.any fun s => decide (s.Kind = KindVSCode)) = true then
        ⟨none, reasonMissingCode, "",
          "VS Code CLI not found (code/codium/code-insiders)"⟩
      else if agent.Binary ≠ "" ∧ e.hasBinary agent.Binary = true then
        ⟨none, reasonManualInstall, "",
          "binary found but no supported install method detected"⟩
      else ⟨none, reasonMissing, "",
        "no supported binary or install method detected"⟩ := by
    exact resolveLoop_fallthrough agent e
      (if agent.Binary ≠ "" then e.nodeManagerForBinary agent.Binary else "")
      (if (if agent.Binary ≠ "" then e.nodeManagerForBinary agent.Binary else "") = "" ∧
          nodePackageName agent.Strategies ≠ "" then
        e.nodeManagerForPackage (nodePackageName agent.Strategies)
      else "")
      agent.Strategies false h
  have hcmd : (resolveUpdate agent e).cmd = none := by
    rw [heq']
    split_ifs <;> rfl
  refine ⟨heq', hcmd, ?_, ?_, ?_⟩
  · rw [heq']
    split_ifs
    · exact Or.inl rfl
    · exact Or.inr (Or.inl rfl)
    · exact Or.inr (Or.inr rfl)
  · intro i
    exact hcmd
  · intro works t ht w hw
    exact buildTasks_agents_have_cmd works t ht w hw

/-- C4 counterexample: the agent's binary is present, its npm strategy is
blocked because npm is absent (a blocking reason other than the missing
editor CLI), and its VS Code strategy is blocked by the missing editor
CLI — the original claim's "only blocking reason seen" condition fails
and its "otherwise manual install" branch should apply, yet the code
reports "missing vscode". -/
theorem resolveUpdate_missing_vscode_counterexample :
    envC4.hasBinary agentC4.Binary = true ∧
    (∃ strat ∈ agentC4.Strategies, isNodeKind strat.Kind = true ∧
      envC4.hasNodeManager strat.Kind = false) ∧
    envC4.codeCmd = "" ∧
    (resolveUpdate agentC4 envC4).cmd = none ∧
    (resolveUpdate agentC4 envC4).reason = reasonMissingCode := by
  decide

/-- Witness: the amended skip-reason theorem applied at the
counterexample agent; the skip produced no update command. -/
theorem resolveUpdate_skip_reasons_witness :
    (resolveUpdate agentC4 envC4).reason ≠ "" ∧
    (resolveUpdate agentC4 envC4).cmd = none :=
  ⟨by decide, (resolveUpdate_skip_reasons agentC4 envC4 (by decide)).2.1⟩

end UCA
